import Mathlib

/-!
Verification of the surfa volumetric-geometry core (transform/affine.py,
image/framed.py, io/framed.py) against its natural-language specification.

The Python code is shallowly embedded: numpy float arrays become functions
into an ordered field (`ℝ` where trigonometry or matrix inverses are needed,
`ℚ` where concrete evaluation matters), raised exceptions become `Except`
values, and dynamically shaped numpy arrays become records carrying their
shape.  External library calls (numpy QR factorization, the float32 byte
codec) are modelled by their documented contracts.
-/

namespace Surfa

/-- Error classes raised by the embedded code, mirroring the spec's taxonomy
(ShapeError, DimensionMismatch, ImmutableError, NotSupportedError,
InvalidArgument, MissingContextError, broadcast failures from numpy). -/
inductive Err where
  | shapeError
  | dimensionMismatch
  | immutableError
  | notSupported
  | invalidArgument
  | missingContext
  | broadcastError
  deriving DecidableEq, Repr

/-- Coordinate spaces of affine transforms (surfa/transform/space.py is only
referenced here through its names; the spec enumerates voxel, world and
surface). -/
inductive Space where
  | voxel
  | world
  | surface
  deriving DecidableEq, Repr

/-! ## C1: the `Affine.matrix` setter (surfa/transform/affine.py lines 67-84)

The setter receives an arbitrary 2-D numpy array.  We embed dynamically
shaped 2-D float arrays as a record of the two dimensions plus an entry
function, and numpy's in-place slice assignment `square[: square.shape[0], :]
= mat` by its broadcasting rule: assigning an `(r, c)` array into a view of
shape `(R, C)` succeeds only when `r ∈ {R, 1}` and `c ∈ {C, 1}`. -/

/-- Dynamically shaped 2-D real array (a numpy `ndarray` with `ndim == 2`). -/
structure NdArray2 where
  rows : ℕ
  cols : ℕ
  entry : ℕ → ℕ → ℝ

/-- Result of `np.eye (n)` as a dynamically shaped array. -/
def npEye (n : ℕ) : NdArray2 :=
  ⟨n, n, fun i j => if i = j then 1 else 0⟩

/-- Broadcast condition for numpy assignment of `src` into a view of shape
`(rows, cols)`: each source dimension must equal the destination dimension
or be 1. -/
def broadcastsInto (src : NdArray2) (rows cols : ℕ) : Prop :=
  (src.rows = rows ∨ src.rows = 1) ∧ (src.cols = cols ∨ src.cols = 1)

instance (src : NdArray2) (rows cols : ℕ) : Decidable (broadcastsInto src rows cols) := by
  unfold broadcastsInto
  infer_instance

/-- Embedding of the `Affine.matrix` property setter
(surfa/transform/affine.py lines 67-84).  It validates that the incoming
2-D array has shape `(N, N+1)` or `(N+1, N+1)` with `N ∈ {2, 3}` (raising
`ShapeError` otherwise), then executes
`square = np.eye(ndim + 1); square[: square.shape[0], :] = mat`:
the assignment writes `mat` over the whole `(ndim+1, ndim+1)` identity and
therefore requires `mat` to broadcast into shape `(ndim+1, ndim+1)`. -/
def affineMatrixSetter (mat : NdArray2) : Except Err NdArray2 :=
  let ndim := mat.cols - 1
  if ¬((ndim = 2 ∨ ndim = 3) ∧ (mat.rows = ndim ∨ mat.rows = ndim + 1)) then
    .error .shapeError
  else
    -- square = np.eye(ndim + 1); square[: square.shape[0], :] = mat
    if broadcastsInto mat (ndim + 1) (ndim + 1) then
      .ok ⟨ndim + 1, ndim + 1,
        fun i j => if i < mat.rows ∨ mat.rows = 1 then
          mat.entry (if mat.rows = 1 then 0 else i) j
        else (npEye (ndim + 1)).entry i j⟩
    else
      .error .broadcastError

/-- A concrete `(3, 4)` matrix: the top three rows of the 4x4 identity.
According to the constructor's docstring (and the spec) this is a valid
non-square affine input that should be padded with the identity row. -/
def nonSquareInput34 : NdArray2 :=
  ⟨3, 4, fun i j => if i = j then 1 else 0⟩

/-! ## Homogeneous 4x4 affine helpers

Shared embedding of the 4x4 homogeneous matrices manipulated by
`ImageGeometry` and `FramedImage`.  The field `K` is `ℝ` for claims needing
analysis and `ℚ` where concrete evaluation matters. -/

section Foundations

variable {K : Type} [Field K]

/-- Builds the 4x4 homogeneous matrix with linear block `L`, translation
column `t` and last row `[0, 0, 0, 1]`. -/
def affineMat (L : Matrix (Fin 3) (Fin 3) K) (t : Fin 3 → K) :
    Matrix (Fin 4) (Fin 4) K :=
  Matrix.of fun i j =>
    Fin.lastCases (Fin.lastCases 1 (fun _ => (0 : K)) j)
      (fun i3 => Fin.lastCases (t i3) (fun j3 => L i3 j3) j) i

@[simp] theorem affineMat_cast_cast (L : Matrix (Fin 3) (Fin 3) K) (t : Fin 3 → K)
    (i j : Fin 3) : affineMat L t i.castSucc j.castSucc = L i j := by
  simp [affineMat]

@[simp] theorem affineMat_cast_last (L : Matrix (Fin 3) (Fin 3) K) (t : Fin 3 → K)
    (i : Fin 3) : affineMat L t i.castSucc (Fin.last 3) = t i := by
  simp [affineMat]

@[simp] theorem affineMat_last_cast (L : Matrix (Fin 3) (Fin 3) K) (t : Fin 3 → K)
    (j : Fin 3) : affineMat L t (Fin.last 3) j.castSucc = 0 := by
  simp [affineMat]

@[simp] theorem affineMat_last_last (L : Matrix (Fin 3) (Fin 3) K) (t : Fin 3 → K) :
    affineMat L t (Fin.last 3) (Fin.last 3) = 1 := by
  simp [affineMat]

/-- Embedding of `Affine.transform` (surfa/transform/affine.py lines
172-190) for a single 3-D point: append a homogeneous 1, multiply by the
matrix, and drop the last coordinate. -/
def homApply (M : Matrix (Fin 4) (Fin 4) K) (p : Fin 3 → K) : Fin 3 → K :=
  fun i => (∑ j : Fin 3, M i.castSucc j.castSucc * p j) + M i.castSucc (Fin.last 3)

/-- Executable matrix inverse over a field, the embedding of
`np.linalg.inv`: the adjugate divided by the determinant. -/
def minv {n : ℕ} (A : Matrix (Fin n) (Fin n) K) : Matrix (Fin n) (Fin n) K :=
  A.det⁻¹ • A.adjugate

/-- The executable inverse agrees with Mathlib's `Matrix.inv`. -/
theorem minv_eq_inv {n : ℕ} (A : Matrix (Fin n) (Fin n) K) : minv A = A⁻¹ := by
  rw [Matrix.inv_def, Ring.inverse_eq_inv']
  rfl

/-- Modelled from the spec: `ImageGeometry` (surfa/transform/geometry.py is
not part of the sources).  Attributes per spec section 3: `shape` (3 positive
integers), `voxsize` (3 floats), `rotation` (3x3 direction-cosine matrix),
`center` (world coordinate of the volume center).  A `shear` attribute is
carried as well because `FramedImage.resample_like` compares it.  The
derived `vox2world` is built from `rotation * diag(voxsize)` plus a
translation solved so that the geometric center `shape / 2` maps to
`center`. -/
structure ImageGeometry (K : Type) where
  shape : Fin 3 → ℕ
  voxsize : Fin 3 → K
  rotation : Matrix (Fin 3) (Fin 3) K
  center : Fin 3 → K
  shear : Fin 3 → K
  deriving DecidableEq

namespace ImageGeometry

/-- Linear block of the voxel-to-world map: `rotation * diag(voxsize)`. -/
def linear (g : ImageGeometry K) : Matrix (Fin 3) (Fin 3) K :=
  g.rotation * Matrix.diagonal g.voxsize

/-- Geometric center of the voxel grid, `shape / 2`. -/
def halfShape (g : ImageGeometry K) : Fin 3 → K :=
  fun i => (g.shape i : K) / 2

/-- Translation column of `vox2world`, solved so the geometric center maps
to the stored world `center`. -/
def translation (g : ImageGeometry K) : Fin 3 → K :=
  fun i => g.center i - g.linear.mulVec g.halfShape i

/-- Derived voxel-to-world homogeneous matrix (spec section 3). -/
def vox2world (g : ImageGeometry K) : Matrix (Fin 4) (Fin 4) K :=
  affineMat g.linear g.translation

/-- Derived world-to-voxel matrix, the inverse of `vox2world`. -/
def world2vox (g : ImageGeometry K) : Matrix (Fin 4) (Fin 4) K :=
  minv g.vox2world

end ImageGeometry

/-- Embedding of the `Affine` object (surfa/transform/affine.py): the stored
square homogeneous matrix, optional source/target geometries, optional
coordinate space, and the numpy writeability flag backing `_writeable`.
The matrix dimension index `n` is the transform's `ndim` (2 or 3). -/
structure Affine (K : Type) (n : ℕ) where
  matrix : Matrix (Fin (n + 1)) (Fin (n + 1)) K
  source : Option (ImageGeometry K) := none
  target : Option (ImageGeometry K) := none
  space : Option Space := none
  writeable : Bool := true

namespace Affine

variable {n : ℕ}

/-- Embedding of `Affine.__matmul__` (surfa/transform/affine.py lines
155-163): multiply the matrices; the result carries no source, target or
space.  The dimension-equality check is enforced by the type index. -/
def matmul (a b : Affine K n) : Affine K n :=
  { matrix := a.matrix * b.matrix }

/-- Embedding of `Affine.inv` (surfa/transform/affine.py lines 192-202):
invert the matrix and swap source and target, preserving the space. -/
def inv (a : Affine K n) : Affine K n :=
  { matrix := minv a.matrix
    source := a.target
    target := a.source
    space := a.space }

end Affine

end Foundations

section InverseLaws

/-- Identity 3-D affine used to witness the algebraic laws. -/
def idAffine3 : Affine ℝ 3 :=
  { matrix := 1 }

/-- C3: for affines of equal dimensionality with invertible matrices,
double inversion returns the original matrix and the inverse of a product
is the reversed product of the inverses, elementwise within tolerance
1e-8 (the embedded real arithmetic gives exact equality, hence any
nonnegative tolerance). -/
theorem c3_inv_involution_and_product_rule {n : ℕ} (A B : Affine ℝ n)
    (hA : IsUnit A.matrix.det) (hB : IsUnit B.matrix.det) :
    (∀ i j, |A.inv.inv.matrix i j - A.matrix i j| ≤ 1e-8) ∧
    (∀ i j, |(A.matmul B).inv.matrix i j - ((B.inv).matmul A.inv).matrix i j| ≤ 1e-8) := by
  have h1 : A.inv.inv.matrix = A.matrix := by
    simp [Affine.inv, minv_eq_inv, Matrix.nonsing_inv_nonsing_inv _ hA]
  have h2 : (A.matmul B).inv.matrix = ((B.inv).matmul A.inv).matrix := by
    simp [Affine.inv, Affine.matmul, minv_eq_inv, Matrix.mul_inv_rev]
  refine ⟨fun i j => ?_, fun i j => ?_⟩
  · rw [h1, sub_self, abs_zero]; norm_num
  · rw [h2, sub_self, abs_zero]; norm_num

/-- Witness for C3 at the identity affine. -/
theorem c3_witness :
    IsUnit idAffine3.matrix.det ∧
    ((∀ i j, |idAffine3.inv.inv.matrix i j - idAffine3.matrix i j| ≤ 1e-8) ∧
     (∀ i j, |(idAffine3.matmul idAffine3).inv.matrix i j -
        ((idAffine3.inv).matmul idAffine3.inv).matrix i j| ≤ 1e-8)) :=
  ⟨by simp [idAffine3],
   c3_inv_involution_and_product_rule idAffine3 idAffine3
     (by simp [idAffine3]) (by simp [idAffine3])⟩

end InverseLaws

/-! ## C2/C10: `FramedImage._crop` (surfa/image/framed.py lines 105-190)

We embed the slices-only path of `_crop` (no integer indices, so no axes
are removed).  The helpers `sane_slicing`/`slicing_parameters`
(surfa/image/slicing.py, not part of the sources) are modelled from the
spec: they reduce the index expression to per-axis `start` and `step`
vectors; the shape of `data[index_expression]` is passed in as
`croppedShape`. -/

section Crop

variable {K : Type} [Field K]

/-- Embedding of `matrix[:3, 3] = t` on a 4x4 matrix: replace the
translation column of the first three rows. -/
def setTranslation (M : Matrix (Fin 4) (Fin 4) K) (t : Fin 3 → K) :
    Matrix (Fin 4) (Fin 4) K :=
  Matrix.of fun i j =>
    Fin.lastCases (M i j) (fun i3 => Fin.lastCases (t i3) (fun _ => M i j) j) i

theorem setTranslation_affineMat (L : Matrix (Fin 3) (Fin 3) K)
    (t t2 : Fin 3 → K) : setTranslation (affineMat L t) t2 = affineMat L t2 := by
  ext i j
  refine Fin.lastCases ?_ (fun i3 => ?_) i <;> refine Fin.lastCases ?_ (fun j3 => ?_) j <;>
    simp [setTranslation]

theorem homApply_affineMat (L : Matrix (Fin 3) (Fin 3) K) (t : Fin 3 → K)
    (p : Fin 3 → K) (i : Fin 3) :
    homApply (affineMat L t) p i = L.mulVec p i + t i := by
  simp [homApply, Matrix.mulVec, Matrix.dotProduct, Fin.sum_univ_three]

/-- Embedding of the slices-only path of `FramedImage._crop`
(surfa/image/framed.py lines 133-190): reject any axis step below 1 with a
NotSupportedError-class error directing the caller to `reorient()`,
otherwise scale the voxel size by the step, move the translation column to
the world position of the starting voxel, and rebuild the geometry around
the world coordinate of the cropped region's center. -/
def crop (g : ImageGeometry K) (start step : Fin 3 → ℤ)
    (croppedShape : Fin 3 → ℕ) : Except Err (ImageGeometry K) :=
  if ∃ i, step i < 1 then
    .error Err.notSupported
  else
    let rotation := g.rotation
    let voxsize : Fin 3 → K := fun i => g.voxsize i * (step i : K)
    let matrix := setTranslation g.vox2world
      (homApply g.vox2world fun i => (start i : K))
    let imageCenter : Fin 3 → K := fun i => (croppedShape i : K) * (step i : K) / 2
    let worldCenter := homApply matrix imageCenter
    .ok ⟨croppedShape, voxsize, rotation, worldCenter, fun _ => 0⟩

/-- Small rational geometry used for concrete crop evaluations. -/
def rationalGeom : ImageGeometry ℚ :=
  ⟨![4, 4, 4], fun _ => 1, 1, fun _ => 0, fun _ => 0⟩

/-- C2 counterexample: the claim says a crop whose slice step is 2 fails
with a NotSupportedError-class error; evaluating the embedded `_crop` on a
step-2 slicing of a concrete 4x4x4 geometry shows it succeeds. -/
theorem c2_counterexample_step_two_succeeds :
    (crop rationalGeom (fun _ => 0) (fun _ => 2) ![2, 2, 2]).isOk = true := by
  rfl

/-- C2 (amended): a crop fails - with the NotSupportedError-class error
directing the caller to `reorient()` - exactly when some axis step is
below 1 (negative steps, i.e. axis reversal); any slicing whose steps are
all at least 1 (not just step exactly 1) succeeds with updated geometry. -/
theorem c2_crop_step_characterization (g : ImageGeometry K)
    (start step : Fin 3 → ℤ) (croppedShape : Fin 3 → ℕ) :
    (crop g start step croppedShape = .error Err.notSupported ↔ ∃ i, step i < 1) ∧
    ((crop g start step croppedShape).isOk = true ↔ ∀ i, 1 ≤ step i) := by
  constructor
  · constructor
    · intro hc
      by_contra hex
      rw [crop, if_neg hex] at hc
      cases hc
    · intro hex
      rw [crop, if_pos hex]
  · constructor
    · intro hc
      by_contra hall
      push_neg at hall
      rw [crop, if_pos hall] at hc
      simp [Except.isOk, Except.toBool] at hc
    · intro hall
      have hne : ¬∃ i, step i < 1 := by
        push_neg
        exact hall
      rw [crop, if_neg hne]
      rfl

theorem homApply_zero (L : Matrix (Fin 3) (Fin 3) K) (t : Fin 3 → K) :
    homApply (affineMat L t) (fun _ => 0) = t := by
  funext i
  rw [homApply_affineMat]
  simp [Matrix.mulVec, Matrix.dotProduct]

/-- Scaling the diagonal by the step and halving the shape computes the
same vector as the original linear block applied to `shape * step / 2`. -/
theorem mulVec_diagonal_scaled (R : Matrix (Fin 3) (Fin 3) K) (v c : Fin 3 → K)
    (s : Fin 3 → ℕ) (i : Fin 3) :
    (R * Matrix.diagonal fun j => v j * c j).mulVec (fun j => (s j : K) / 2) i =
    (R * Matrix.diagonal v).mulVec (fun j => (s j : K) * c j / 2) i := by
  rw [Matrix.mulVec, Matrix.mulVec, Matrix.dotProduct, Matrix.dotProduct]
  refine Finset.sum_congr rfl fun b _ => ?_
  rw [Matrix.mul_diagonal, Matrix.mul_diagonal]
  ring

/-- The geometry built by `_crop` has its voxel origin at the world
position of the crop's starting voxel. -/
theorem cropped_geometry_origin (g : ImageGeometry K) (startK stepK : Fin 3 → K)
    (s : Fin 3 → ℕ) :
    homApply (ImageGeometry.vox2world
      ⟨s, fun i => g.voxsize i * stepK i, g.rotation,
        homApply (setTranslation g.vox2world (homApply g.vox2world startK))
          (fun i => (s i : K) * stepK i / 2), fun _ => 0⟩) (fun _ => 0) =
    homApply g.vox2world startK := by
  rw [ImageGeometry.vox2world, homApply_zero]
  funext i
  show ImageGeometry.translation _ i = _
  rw [ImageGeometry.translation]
  have hv2w : g.vox2world = affineMat g.linear g.translation := rfl
  rw [show ImageGeometry.center (⟨s, fun i => g.voxsize i * stepK i, g.rotation,
        homApply (setTranslation g.vox2world (homApply g.vox2world startK))
          (fun i => (s i : K) * stepK i / 2), fun _ => 0⟩ : ImageGeometry K) =
      homApply (setTranslation g.vox2world (homApply g.vox2world startK))
          (fun i => (s i : K) * stepK i / 2) from rfl]
  rw [hv2w, setTranslation_affineMat, homApply_affineMat, homApply_affineMat]
  show _ + (g.linear.mulVec startK i + g.translation i) -
      (g.rotation * Matrix.diagonal fun j => g.voxsize j * stepK j).mulVec
        (fun j => (s j : K) / 2) i = _
  rw [mulVec_diagonal_scaled]
  show g.linear.mulVec (fun i => (s i : K) * stepK i / 2) i + _ - _ = _
  rw [show (g.rotation * Matrix.diagonal g.voxsize) = g.linear from rfl]
  ring

/-- C10: a crop whose axis steps are all at least 1 is accepted; the
resulting geometry's voxel size is the original voxel size times the
per-axis step, and its voxel origin (voxel index 0) maps to the same world
coordinate as the crop's starting voxel under the original geometry. -/
theorem c10_crop_positive_step_geometry (g : ImageGeometry K)
    (start step : Fin 3 → ℤ) (croppedShape : Fin 3 → ℕ)
    (hstep : ∀ i, 1 ≤ step i) :
    ∃ g2, crop g start step croppedShape = .ok g2 ∧
      (∀ i, g2.voxsize i = g.voxsize i * (step i : K)) ∧
      homApply g2.vox2world (fun _ => 0) =
        homApply g.vox2world (fun i => (start i : K)) := by
  have hne : ¬∃ i, step i < 1 := by
    push_neg
    exact hstep
  rw [crop, if_neg hne]
  exact ⟨_, rfl, fun i => rfl,
    cropped_geometry_origin g (fun i => (start i : K)) (fun i => (step i : K))
      croppedShape⟩

/-- Witness for C10 on a concrete step-2 crop. -/
theorem c10_witness :
    (∀ i : Fin 3, 1 ≤ (fun _ : Fin 3 => (2 : ℤ)) i) ∧
    ∃ g2, crop rationalGeom (fun _ => 1) (fun _ => 2) ![2, 2, 2] = .ok g2 ∧
      (∀ i, g2.voxsize i = rationalGeom.voxsize i * ((2 : ℤ) : ℚ)) ∧
      homApply g2.vox2world (fun _ => 0) =
        homApply rationalGeom.vox2world (fun i => ((1 : ℤ) : ℚ)) :=
  ⟨by decide, c10_crop_positive_step_geometry rationalGeom (fun _ => 1)
    (fun _ => 2) ![2, 2, 2] (by decide)⟩

/-- Witness for C2's amended characterization at a concrete input. -/
theorem c2_witness :
    (crop rationalGeom (fun _ => 0) (fun _ => 1) ![4, 4, 4] =
        .error Err.notSupported ↔ ∃ i, (fun _ : Fin 3 => (1 : ℤ)) i < 1) ∧
    ((crop rationalGeom (fun _ => 0) (fun _ => 1) ![4, 4, 4]).isOk = true ↔
      ∀ i, 1 ≤ (fun _ : Fin 3 => (1 : ℤ)) i) :=
  c2_crop_step_characterization rationalGeom (fun _ => 0) (fun _ => 1) ![4, 4, 4]

end Crop

/-! ## C5: `FramedImage.resize` (surfa/image/framed.py lines 241-287)

The voxel buffer is opaque to `resize` until the final interpolation call
(which is an external collaborator per the spec), so the image is embedded
as an opaque data payload plus geometry plus metadata.  Arithmetic is over
`ℚ`, the executable idealization of the float arithmetic. -/

/-- Embedding of a 3-D `FramedImage` (`Volume`): opaque voxel data, an
`ImageGeometry`, and opaque metadata. -/
structure FramedVol (K α μ : Type) where
  data : α
  geom : ImageGeometry K
  metadata : μ

/-- Result of `resize`: either a plain copy (voxel size already matches)
or a resample request carrying the target shape, target geometry and
voxel-to-voxel affine handed to the external `interpolate` collaborator. -/
inductive ResizeOutcome (K α μ : Type) where
  | copied (img : FramedVol K α μ)
  | resampled (targetShape : Fin 3 → ℕ) (targetGeom : ImageGeometry K)
      (affine : Matrix (Fin 4) (Fin 4) K)

/-- Embedding of `FramedImage.resize` for 3-D volumes
(surfa/image/framed.py lines 262-287): return a copy when the current
voxel size matches the target within absolute tolerance 1e-5; otherwise
the target shape is `ceil(old_voxsize * old_shape / new_voxsize)` per
axis, the target geometry keeps the rotation and world center, and the
voxel-to-voxel affine is `world2vox * target.vox2world`. -/
def resize {α μ : Type} (img : FramedVol ℚ α μ) (voxsize : Fin 3 → ℚ) :
    ResizeOutcome ℚ α μ :=
  if ∀ i, |img.geom.voxsize i - voxsize i| ≤ 1e-5 then
    .copied img
  else
    let targetShape : Fin 3 → ℕ := fun i =>
      (Int.ceil (img.geom.voxsize i * (img.geom.shape i : ℚ) / voxsize i)).toNat
    let targetGeom : ImageGeometry ℚ :=
      ⟨targetShape, voxsize, img.geom.rotation, img.geom.center, fun _ => 0⟩
    .resampled targetShape targetGeom (img.geom.world2vox * targetGeom.vox2world)

/-- Target-shape projection of a resize outcome (`none` for a copy). -/
def ResizeOutcome.shapeOf {K α μ : Type} : ResizeOutcome K α μ → Option (Fin 3 → ℕ)
  | .copied _ => none
  | .resampled s _ _ => some s

/-- A 10x10x10 volume with unit voxel size (the spec's concrete resize
scenario). -/
def vol10 : FramedVol ℚ Unit Unit :=
  ⟨(), ⟨![10, 10, 10], fun _ => 1, 1, fun _ => 0, fun _ => 0⟩, ()⟩

/-- C5: `resize` returns an unchanged copy exactly when the current voxel
size matches the target within absolute tolerance 1e-5; otherwise it
resamples into the shape `ceil(old_shape * old_voxsize / new_voxsize)`
per axis; concretely, resizing a (10,10,10) unit-voxel volume to voxel
size 2 targets shape 5 on every axis. -/
theorem c5_resize_shape {α μ : Type} (img : FramedVol ℚ α μ) (voxsize : Fin 3 → ℚ) :
    ((∀ i, |img.geom.voxsize i - voxsize i| ≤ 1e-5) →
      resize img voxsize = .copied img) ∧
    (¬(∀ i, |img.geom.voxsize i - voxsize i| ≤ 1e-5) →
      ∃ tg aff, resize img voxsize = .resampled
        (fun i => (Int.ceil (img.geom.voxsize i * (img.geom.shape i : ℚ) / voxsize i)).toNat)
        tg aff) ∧
    (resize vol10 fun _ => 2).shapeOf = some (fun _ => 5) := by
  have hne : ¬∀ i : Fin 3, |vol10.geom.voxsize i - (fun _ : Fin 3 => (2 : ℚ)) i| ≤ 1e-5 := by
    intro h
    have h0 := h 0
    norm_num [vol10] at h0
  refine ⟨fun h => ?_, fun h => ?_, ?_⟩
  · rw [resize, if_pos h]
  · rw [resize, if_neg h]
    exact ⟨_, _, rfl⟩
  · rw [resize, if_neg hne, ResizeOutcome.shapeOf]
    refine congrArg some (funext fun i => ?_)
    fin_cases i <;> norm_num [vol10] <;> rfl

/-- Witness for C5: both branches exercised on the concrete volume. -/
theorem c5_witness :
    resize vol10 (fun _ => 1) = .copied vol10 ∧
    (∃ tg aff, resize vol10 (fun _ => 2) = .resampled
      (fun i => (Int.ceil (vol10.geom.voxsize i * (vol10.geom.shape i : ℚ) / 2)).toNat)
      tg aff) :=
  ⟨(c5_resize_shape vol10 fun _ => 1).1 (by intro i; norm_num [vol10]),
   (c5_resize_shape vol10 fun _ => 2).2.1 (by
      intro h
      have h0 := h 0
      norm_num [vol10] at h0)⟩

/-! ## C9: read-only affines (surfa/transform/affine.py lines 40-58, 67-126, 140-146)

Each Python property setter first calls `_check_writeability`, raising an
ImmutableError-class ValueError when the numpy writeability flag is off.
Setters are embedded in state-passing style: they return either the error
or the updated record, never touching the caller's value, so a failing
setter leaves every attribute unchanged by construction. -/

section ReadOnly

variable {K : Type} {n : ℕ}

namespace Affine

/-- Embedding of the `Affine.matrix` setter's writeability gate for an
already-constructed affine (the shape validation is carried by the type
index here; see `affineMatrixSetter` for the dynamic-shape behavior). -/
def setMatrix (a : Affine K n) (m : Matrix (Fin (n + 1)) (Fin (n + 1)) K) :
    Except Err (Affine K n) :=
  if a.writeable then .ok { a with matrix := m } else .error Err.immutableError

/-- Embedding of the `Affine.space` setter. -/
def setSpace (a : Affine K n) (s : Option Space) : Except Err (Affine K n) :=
  if a.writeable then .ok { a with space := s } else .error Err.immutableError

/-- Embedding of the `Affine.source` setter. -/
def setSource (a : Affine K n) (g : Option (ImageGeometry K)) :
    Except Err (Affine K n) :=
  if a.writeable then .ok { a with source := g } else .error Err.immutableError

/-- Embedding of the `Affine.target` setter. -/
def setTarget (a : Affine K n) (g : Option (ImageGeometry K)) :
    Except Err (Affine K n) :=
  if a.writeable then .ok { a with target := g } else .error Err.immutableError

/-- Embedding of `Affine.copy` (lines 140-146): deep copy with the
writeability flag forced back on. -/
def copy (a : Affine K n) : Affine K n :=
  { a with writeable := true }

end Affine

/-- C9: on a read-only affine every setter (matrix, space, source, target)
fails with the ImmutableError-class error (returning no updated state, so
the affine's attributes are unchanged), while `copy()` yields a writeable
duplicate with identical attributes whose own setters succeed - and, the
embedding being state-passing, mutating the copy never touches the
original. -/
theorem c9_read_only_setters_and_copy (a : Affine K n)
    (h : a.writeable = false) :
    (∀ m, a.setMatrix m = .error Err.immutableError) ∧
    (∀ s, a.setSpace s = .error Err.immutableError) ∧
    (∀ g, a.setSource g = .error Err.immutableError) ∧
    (∀ g, a.setTarget g = .error Err.immutableError) ∧
    (a.copy.writeable = true ∧ a.copy.matrix = a.matrix ∧
      a.copy.space = a.space ∧ a.copy.source = a.source ∧
      a.copy.target = a.target) ∧
    (∀ m, a.copy.setMatrix m = .ok { a.copy with matrix := m }) := by
  refine ⟨fun m => ?_, fun s => ?_, fun g => ?_, fun g => ?_,
    ⟨rfl, rfl, rfl, rfl, rfl⟩, fun m => ?_⟩ <;>
    simp [Affine.setMatrix, Affine.setSpace, Affine.setSource,
      Affine.setTarget, Affine.copy, h]

/-- A concrete read-only 3-D affine. -/
def roAffine : Affine ℚ 3 :=
  { matrix := 1, writeable := false }

/-- Witness for C9 at a concrete read-only affine. -/
theorem c9_witness :
    roAffine.writeable = false ∧
    ((∀ m, roAffine.setMatrix m = .error Err.immutableError) ∧
     (∀ s, roAffine.setSpace s = .error Err.immutableError) ∧
     (∀ g, roAffine.setSource g = .error Err.immutableError) ∧
     (∀ g, roAffine.setTarget g = .error Err.immutableError) ∧
     (roAffine.copy.writeable = true ∧ roAffine.copy.matrix = roAffine.matrix ∧
       roAffine.copy.space = roAffine.space ∧ roAffine.copy.source = roAffine.source ∧
       roAffine.copy.target = roAffine.target) ∧
     (∀ m, roAffine.copy.setMatrix m = .ok { roAffine.copy with matrix := m })) :=
  ⟨rfl, c9_read_only_setters_and_copy roAffine rfl⟩

end ReadOnly

/-! ## C6: `FramedImage.resample_like` (surfa/image/framed.py lines 289-363)

The fast exact-copy path computes per-axis slicing coordinates, clamps
them, and executes `target_data[target_slicing] = framed_data[source_slicing]`.
numpy slice semantics are embedded exactly: a negative bound counts from
the end of the axis, bounds are clamped into `[0, n]`, and a slice
assignment is valid per axis when the source region length equals the
target region length or is 1 (a size-1 axis broadcasts to any target
length, including 0); otherwise numpy raises a broadcast ValueError. -/

section ResampleLike

/-- Per-axis slicing bounds computed by the fast path of
`resample_like`. -/
structure AxisSlices where
  targetStart : ℤ
  targetStop : ℤ
  sourceStart : ℤ
  sourceStop : ℤ
  deriving DecidableEq, Repr

/-- Embedding of the slicing-coordinate computation and clamping of
`resample_like` (surfa/image/framed.py lines 337-349) for one axis:
`off` is the rounded integer offset, `sShape`/`tShape` the source/target
extents. -/
def clampAxis (off : ℤ) (sShape tShape : ℕ) : AxisSlices :=
  let targetStart := off
  let sourceStart : ℤ := 0
  let targetStop := off + sShape
  let sourceStop : ℤ := sShape
  let d1 := max (-targetStart) 0
  let targetStart1 := targetStart + d1
  let sourceStart1 := sourceStart + d1
  let d2 := max (targetStop - tShape) 0
  let targetStop1 := targetStop - d2
  let sourceStop1 := sourceStop - d2
  ⟨targetStart1, targetStop1, sourceStart1, sourceStop1⟩

/-- numpy normalization of a slice bound on an axis of length `n`: a
negative value counts from the end, and the result is clamped into
`[0, n]`. -/
def pyIdx (n : ℕ) (v : ℤ) : ℤ :=
  if v < 0 then max (v + n) 0 else min v n

/-- Number of indices selected by the step-1 slice `a:b` on an axis of
length `n` under numpy semantics. -/
def pyLen (n : ℕ) (a b : ℤ) : ℤ :=
  max (pyIdx n b - pyIdx n a) 0

/-- Outcome of `resample_like`: a plain copy, the fast-path offset copy
(carrying the filled-and-copied target buffer), a numpy broadcast failure
inside the fast path, or a fall-through to the external interpolation
collaborator. -/
inductive ResampleOutcome (β : Type) where
  | copied
  | fastCopy (targetData : (Fin 3 → ℤ) → β)
  | broadcastFail
  | interp (affine : Matrix (Fin 4) (Fin 4) ℚ)

/-- Embedding of `target_data = np.full(target_shape, fill)` followed by
`target_data[target_slicing] = framed_data[source_slicing]` with the
numpy-normalized slice bounds: voxels inside the target region are copied
from the source at the matching region offset - a source axis of length 1
is broadcast, every target index along it reading the single source
plane - and all other voxels hold the fill value. -/
def fastCopyData {β : Type} (dat : (Fin 3 → ℤ) → β) (fill : β)
    (sShape tShape : Fin 3 → ℕ) (ax : Fin 3 → AxisSlices) : (Fin 3 → ℤ) → β :=
  fun v =>
    if ∀ i, pyIdx (tShape i) (ax i).targetStart ≤ v i ∧
        v i < pyIdx (tShape i) (ax i).targetStop then
      dat fun i =>
        if pyLen (sShape i) (ax i).sourceStart (ax i).sourceStop = 1 then
          pyIdx (sShape i) (ax i).sourceStart
        else
          pyIdx (sShape i) (ax i).sourceStart +
            (v i - pyIdx (tShape i) (ax i).targetStart)
    else fill

/-- Embedding of `FramedImage.resample_like` (surfa/image/framed.py lines
309-363) over the executable field `ℚ`: a no-op copy when the geometries
are equal; otherwise the fast path runs when voxel size, rotation, and
shear all match within 1e-5 and the inverse voxel-to-voxel affine maps the
origin within 1e-5 of an integer vector; the copy succeeds when, on every
axis, the clamped source region length equals the target region length or
is 1 (numpy broadcasting; it raises a broadcast error otherwise); any
other case goes to the external interpolator. -/
def resampleLike {β : Type} (geomS geomT : ImageGeometry ℚ)
    (dat : (Fin 3 → ℤ) → β) (fill : β) : ResampleOutcome β :=
  if geomS = geomT then .copied
  else
    let affine := minv geomS.vox2world * geomT.vox2world
    let coord : Fin 3 → ℚ := homApply (minv affine) fun _ => 0
    if (∀ i, |geomS.voxsize i - geomT.voxsize i| ≤ 1e-5) ∧
       (∀ i j, |geomS.rotation i j - geomT.rotation i j| ≤ 1e-5) ∧
       (∀ i, |geomS.shear i - geomT.shear i| ≤ 1e-5) then
      if ∀ i, |coord i - (round (coord i) : ℚ)| ≤ 1e-5 then
        let ax : Fin 3 → AxisSlices := fun i =>
          clampAxis (round (coord i)) (geomS.shape i) (geomT.shape i)
        if ∀ i, pyLen (geomT.shape i) (ax i).targetStart (ax i).targetStop =
            pyLen (geomS.shape i) (ax i).sourceStart (ax i).sourceStop ∨
            pyLen (geomS.shape i) (ax i).sourceStart (ax i).sourceStop = 1 then
          .fastCopy (fastCopyData dat fill geomS.shape geomT.shape ax)
        else .broadcastFail
      else .interp affine
    else .interp affine

/-- Composition law for homogeneous affine matrices. -/
theorem affineMat_mul {K : Type} [Field K] (L L2 : Matrix (Fin 3) (Fin 3) K)
    (t t2 : Fin 3 → K) :
    affineMat L t * affineMat L2 t2 =
      affineMat (L * L2) fun i => L.mulVec t2 i + t i := by
  ext i j
  rw [Matrix.mul_apply, Fin.sum_univ_castSucc]
  refine Fin.lastCases ?_ (fun i3 => ?_) i <;> refine Fin.lastCases ?_ (fun j3 => ?_) j <;>
    simp [Matrix.mul_apply, Matrix.mulVec, Matrix.dotProduct]

/-- The homogeneous matrix with identity block and zero translation is the
identity matrix. -/
theorem affineMat_one_zero {K : Type} [Field K] :
    affineMat (1 : Matrix (Fin 3) (Fin 3) K) (fun _ => 0) = 1 := by
  ext i j
  refine Fin.lastCases ?_ (fun i3 => ?_) i
  · refine Fin.lastCases ?_ (fun j3 => ?_) j
    · rw [affineMat_last_last, Matrix.one_apply_eq]
    · rw [affineMat_last_cast, Matrix.one_apply_ne (ne_of_gt (Fin.castSucc_lt_last j3))]
  · refine Fin.lastCases ?_ (fun j3 => ?_) j
    · rw [affineMat_cast_last, Matrix.one_apply_ne (ne_of_lt (Fin.castSucc_lt_last i3))]
    · rw [affineMat_cast_cast]
      simp [Matrix.one_apply, Fin.castSucc_inj]

/-- Inverse of a pure translation. -/
theorem minv_affineMat_one {K : Type} [Field K] (t : Fin 3 → K) :
    minv (affineMat (1 : Matrix (Fin 3) (Fin 3) K) t) = affineMat 1 fun i => -t i := by
  rw [minv_eq_inv]
  refine Matrix.inv_eq_right_inv ?_
  rw [affineMat_mul, one_mul]
  have h : (fun i => (1 : Matrix (Fin 3) (Fin 3) K).mulVec (fun j => -t j) i + t i) =
      fun _ => (0 : K) := by
    funext i
    simp [Matrix.one_mulVec]
  rw [h, affineMat_one_zero]

/-- In-range and equal-length facts about the clamped fast-path slicing
when the offset keeps the source region at least touching the target
range: all four bounds stay inside the arrays, the raw region lengths
agree, and numpy normalization is the identity on them. -/
theorem clampAxis_good (off : ℤ) (s t : ℕ)
    (h1 : -(s : ℤ) ≤ off) (h2 : off ≤ (t : ℤ)) :
    0 ≤ (clampAxis off s t).targetStart ∧
    (clampAxis off s t).targetStart ≤ (clampAxis off s t).targetStop ∧
    (clampAxis off s t).targetStop ≤ (t : ℤ) ∧
    0 ≤ (clampAxis off s t).sourceStart ∧
    (clampAxis off s t).sourceStart ≤ (clampAxis off s t).sourceStop ∧
    (clampAxis off s t).sourceStop ≤ (s : ℤ) ∧
    (clampAxis off s t).targetStop - (clampAxis off s t).targetStart =
      (clampAxis off s t).sourceStop - (clampAxis off s t).sourceStart ∧
    pyLen t (clampAxis off s t).targetStart (clampAxis off s t).targetStop =
      pyLen s (clampAxis off s t).sourceStart (clampAxis off s t).sourceStop ∧
    pyIdx t (clampAxis off s t).targetStart = (clampAxis off s t).targetStart ∧
    pyIdx t (clampAxis off s t).targetStop = (clampAxis off s t).targetStop ∧
    pyIdx s (clampAxis off s t).sourceStart = (clampAxis off s t).sourceStart ∧
    pyIdx s (clampAxis off s t).sourceStop = (clampAxis off s t).sourceStop := by
  simp only [clampAxis, pyLen, pyIdx]
  split_ifs <;> omega

/-- Voxel-to-world matrix of a geometry with unit voxel size and identity
rotation: a pure translation by `center - shape / 2`. -/
theorem vox2world_simple {K : Type} [Field K] (shp : Fin 3 → ℕ) (c sh : Fin 3 → K) :
    (⟨shp, fun _ => 1, 1, c, sh⟩ : ImageGeometry K).vox2world =
      affineMat 1 fun i => c i - (shp i : K) / 2 := by
  have hlin : (⟨shp, fun _ => 1, 1, c, sh⟩ : ImageGeometry K).linear = 1 := by
    rw [ImageGeometry.linear]
    show (1 : Matrix (Fin 3) (Fin 3) K) * Matrix.diagonal (fun _ => 1) = 1
    rw [Matrix.diagonal_one, mul_one]
  rw [ImageGeometry.vox2world, hlin]
  refine congrArg (affineMat 1) (funext fun i => ?_)
  rw [ImageGeometry.translation, hlin, Matrix.one_mulVec]
  rfl

/-- Source geometry of the C6 counterexample: shape 3, centered so its
voxel origin lands at target voxel coordinate 4 - just beyond the target
extent 3. -/
def c6src : ImageGeometry ℚ :=
  ⟨![3, 3, 3], fun _ => 1, 1, fun _ => 11 / 2, fun _ => 0⟩

/-- Target geometry of the C6 counterexample (shape 3). -/
def c6tgt : ImageGeometry ℚ :=
  ⟨![3, 3, 3], fun _ => 1, 1, fun _ => 3 / 2, fun _ => 0⟩

theorem c6src_vox2world : c6src.vox2world = affineMat 1 fun _ => (4 : ℚ) := by
  rw [show c6src = ⟨![3, 3, 3], fun _ => 1, 1, fun _ => 11 / 2, fun _ => 0⟩ from rfl,
    vox2world_simple]
  refine congrArg (affineMat 1) (funext fun i => ?_)
  fin_cases i <;> norm_num

theorem c6tgt_vox2world : c6tgt.vox2world = 1 := by
  rw [show c6tgt = ⟨![3, 3, 3], fun _ => 1, 1, fun _ => 3 / 2, fun _ => 0⟩ from rfl,
    vox2world_simple]
  rw [show (fun i : Fin 3 => (3 : ℚ) / 2 - ((![3, 3, 3] i : ℕ) : ℚ) / 2) =
      fun _ => (0 : ℚ) from funext fun i => by fin_cases i <;> norm_num]
  exact affineMat_one_zero

/-- Source geometry of the C6 witness (offset 1 into a larger target). -/
def c6wsrc : ImageGeometry ℚ :=
  ⟨![2, 2, 2], fun _ => 1, 1, fun _ => 0, fun _ => 0⟩

/-- Target geometry of the C6 witness. -/
def c6wtgt : ImageGeometry ℚ :=
  ⟨![4, 4, 4], fun _ => 1, 1, fun _ => 0, fun _ => 0⟩

end ResampleLike

/-! ## C7: `FramedImage.transform` with `resample=False`
(surfa/image/framed.py lines 365-404) and `Affine.convert`
(surfa/transform/affine.py lines 250-315)

`ImageGeometry.affine(from_space, to_space)` lives in
surfa/transform/geometry.py, which is not part of the sources; it is
modelled from the spec as an oracle producing the between-space conversion
matrix for a geometry.  Setting `geom.vox2world` re-derives the geometry's
attributes from the matrix, so the header-only result is embedded as the
data, the metadata, and the updated vox2world matrix. -/

section HeaderTransform

/-- Modelled from the spec: the `ImageGeometry.affine(a, b)` family of
between-space conversion matrices (spec sections 3 and 4.1), supplied as
an oracle. -/
def GeomAffineOracle (K : Type) : Type :=
  ImageGeometry K → Space → Space → Matrix (Fin 4) (Fin 4) K

/-- Embedding of `Affine.convert` (surfa/transform/affine.py lines
250-315) for 3-D affines over `ℚ`.  A `none` argument keeps the affine's
own source/target/space; if nothing changes, `self` (or a copy) is
returned; converting anything requires the affine's own space, source and
target to all be set, else the MissingContextError-class RuntimeError is
raised; a pure space change composes the between-space matrices of the
existing geometries around the matrix; otherwise the transform is first
normalized to world space and then re-expressed through the new source
and target. -/
def Affine.convert (oracle : GeomAffineOracle ℚ) (a : Affine ℚ 3)
    (source target : Option (ImageGeometry ℚ)) (space : Option Space)
    (cp : Bool) : Except Err (Affine ℚ 3) :=
  let src := match source with | none => a.source | some g => some g
  let tgt := match target with | none => a.target | some g => some g
  let spc := match space with | none => a.space | some s => some s
  if spc = a.space ∧ src = a.source ∧ tgt = a.target then
    .ok (if cp then a.copy else a)
  else
    match a.source, a.target, a.space with
    | some aSrc, some aTgt, some aSpc =>
      if src = a.source ∧ tgt = a.target then
        match spc with
        | some newSpc =>
          .ok ⟨oracle aTgt aSpc newSpc * a.matrix * oracle aSrc newSpc aSpc,
            src, tgt, spc, true⟩
        | none => .error Err.missingContext
      else
        let world : Matrix (Fin 4) (Fin 4) ℚ :=
          if aSpc = Space.world then a.matrix
          else oracle aTgt aSpc Space.world * a.matrix * oracle aSrc Space.world aSpc
        match spc with
        | some newSpc =>
          if newSpc = Space.world then
            .ok ⟨world, src, tgt, spc, true⟩
          else
            match src, tgt with
            | some srcG, some tgtG =>
              .ok ⟨oracle tgtG Space.world newSpc * world * oracle srcG newSpc Space.world,
                src, tgt, spc, true⟩
            | _, _ => .error Err.missingContext
        | none => .error Err.missingContext
    | _, _, _ => .error Err.missingContext

/-- Header-only transform result: unchanged voxel data and metadata, plus
the updated voxel-to-world matrix. -/
structure HeaderResult (K α μ : Type) where
  data : α
  metadata : μ
  vox2world : Matrix (Fin 4) (Fin 4) K

/-- Outcome of `FramedImage.transform`: a header-only geometry update, or
the resampling path that goes through the external interpolator. -/
inductive TransformOutcome (K α μ : Type) where
  | headerOnly (res : HeaderResult K α μ)
  | resampledPath

/-- Embedding of the control flow of `FramedImage.transform`
(surfa/image/framed.py lines 365-427): reject 2-D images first; then
reject a displacement field combined with `resample=False`; with
`resample=False` and an affine, require the affine to carry context
(`(source, target) not both None, and space set`), copy the image, and
left-compose its vox2world with the affine converted into world space
with this image as source; every other combination takes the resampling
path. -/
def transform {α μ : Type} (basedim : ℕ) (img : FramedVol ℚ α μ)
    (affOpt : Option (Affine ℚ 3)) (hasDisp : Bool) (resample : Bool)
    (oracle : GeomAffineOracle ℚ) : Except Err (TransformOutcome ℚ α μ) :=
  if basedim = 2 then .error Err.notSupported
  else if ¬resample ∧ hasDisp then .error Err.invalidArgument
  else
    match resample, affOpt with
    | false, some a =>
      if (a.source = none ∧ a.target = none) ∨ a.space = none then
        .error Err.invalidArgument
      else
        match Affine.convert oracle a (some img.geom) none (some Space.world) true with
        | .ok conv =>
          .ok (.headerOnly ⟨img.data, img.metadata, conv.matrix * img.geom.vox2world⟩)
        | .error e => .error e
    | _, _ => .ok .resampledPath

/-- Under full context, `convert(space=world, source=g)` always succeeds. -/
theorem convert_world_ok (oracle : GeomAffineOracle ℚ) (a : Affine ℚ 3)
    (g : ImageGeometry ℚ) (hs : a.source.isSome) (ht : a.target.isSome)
    (hsp : a.space.isSome) :
    ∃ conv, Affine.convert oracle a (some g) none (some Space.world) true = .ok conv := by
  obtain ⟨aSrc, hS⟩ := Option.isSome_iff_exists.mp hs
  obtain ⟨aTgt, hT⟩ := Option.isSome_iff_exists.mp ht
  obtain ⟨aSpc, hP⟩ := Option.isSome_iff_exists.mp hsp
  simp only [Affine.convert, hS, hT, hP]
  split_ifs <;> exact ⟨_, rfl⟩

/-- C7 (amended): for every 3-D image, a header-only transform with a
full-context affine succeeds, leaving the voxel data and metadata
untouched and updating only the vox2world matrix by left-composing the
affine converted into world space relative to this image; a displacement
field with `resample=False` fails with the InvalidArgument-class error for
every 3-D image; a 2-D image fails earlier with the NotSupportedError-class
2-D restriction, whatever the other arguments. -/
theorem c7_header_transform {α μ : Type} (oracle : GeomAffineOracle ℚ) :
    (∀ (img : FramedVol ℚ α μ) (a : Affine ℚ 3),
      a.source.isSome → a.target.isSome → a.space.isSome →
      ∃ conv, Affine.convert oracle a (some img.geom) none (some Space.world) true = .ok conv ∧
        transform 3 img (some a) false false oracle =
          .ok (.headerOnly ⟨img.data, img.metadata, conv.matrix * img.geom.vox2world⟩)) ∧
    (∀ (img : FramedVol ℚ α μ) (affOpt : Option (Affine ℚ 3)),
      transform 3 img affOpt true false oracle = .error Err.invalidArgument) ∧
    (∀ (img : FramedVol ℚ α μ) (affOpt : Option (Affine ℚ 3)) (hasDisp resample : Bool),
      transform 2 img affOpt hasDisp resample oracle = .error Err.notSupported) := by
  refine ⟨?_, fun img affOpt => rfl, fun img affOpt hasDisp resample => rfl⟩
  intro img a hs ht hsp
  obtain ⟨conv, hconv⟩ := convert_world_ok oracle a img.geom hs ht hsp
  refine ⟨conv, hconv, ?_⟩
  have hctx : ¬((a.source = none ∧ a.target = none) ∨ a.space = none) := by
    rintro (⟨h1, h2⟩ | h3)
    · rw [h1] at hs
      cases hs
    · rw [h3] at hsp
      cases hsp
  show (if (a.source = none ∧ a.target = none) ∨ a.space = none then
      (.error Err.invalidArgument : Except Err (TransformOutcome ℚ α μ))
    else
      match Affine.convert oracle a (some img.geom) none (some Space.world) true with
      | .ok conv =>
        .ok (.headerOnly ⟨img.data, img.metadata, conv.matrix * img.geom.vox2world⟩)
      | .error e => .error e) = _
  rw [if_neg hctx, hconv]

/-- C7 counterexample: the claim says a displacement field with
`resample=False` fails with an InvalidArgument-class error for every input
image, but a 2-D image fails the earlier 2-D restriction with the
NotSupportedError-class error instead. -/
theorem c7_counterexample_2d_disp_wrong_error :
    transform 2 vol10 none true false (fun _ _ _ => 1) = .error Err.notSupported ∧
    Err.notSupported ≠ Err.invalidArgument :=
  ⟨rfl, by decide⟩

/-- A full-context affine for the C7 witness. -/
def fullCtxAffine : Affine ℚ 3 :=
  ⟨1, some rationalGeom, some rationalGeom, some Space.voxel, true⟩

/-- Trivial between-space oracle for the C7 witness. -/
def oracleOne : GeomAffineOracle ℚ :=
  fun _ _ _ => 1

/-- Witness for C7's amended theorem at concrete inputs. -/
theorem c7_witness :
    (fullCtxAffine.source.isSome ∧ fullCtxAffine.target.isSome ∧
      fullCtxAffine.space.isSome) ∧
    (∃ conv, Affine.convert oracleOne fullCtxAffine (some vol10.geom) none
        (some Space.world) true = .ok conv ∧
      transform 3 vol10 (some fullCtxAffine) false false oracleOne =
        .ok (.headerOnly ⟨vol10.data, vol10.metadata,
          conv.matrix * vol10.geom.vox2world⟩)) ∧
    transform 3 vol10 none true false oracleOne = .error Err.invalidArgument ∧
    transform 2 vol10 none false true oracleOne = .error Err.notSupported :=
  ⟨⟨rfl, rfl, rfl⟩,
   (c7_header_transform oracleOne).1 vol10 fullCtxAffine rfl rfl rfl,
   (c7_header_transform oracleOne).2.1 vol10 none,
   (c7_header_transform oracleOne).2.2 vol10 none false true⟩

end HeaderTransform

/-! ## C4: `compose_affine` / `Affine.decompose`
(surfa/transform/affine.py lines 215-248, 407-487, 535-573)

The trigonometric code is embedded over `ℝ`.  `np.arctan2(y, x)` is the
argument of the complex number `x + y i` (range `(-pi, pi]`, `atan2 0 0 = 0`,
matching numpy).  `np.linalg.qr` is an external library call; it is
modelled by its documented contract - any factorization `A = q * r` with
`q` orthonormal and `r` upper triangular - so `decompose` is parameterized
by the factorization numpy returned. -/

noncomputable section ComposeDecompose

open Real

/-- Embedding of `np.arctan2 y x`: the argument of `x + y i`. -/
def atan2 (y x : ℝ) : ℝ :=
  Complex.arg (x + y * Complex.I)

/-- The `rx` factor of `angles_to_rotation_matrix` (surfa/transform/
affine.py line 564). -/
def rotX (a : ℝ) : Matrix (Fin 3) (Fin 3) ℝ :=
  !![1, 0, 0; 0, Real.cos a, Real.sin a; 0, -Real.sin a, Real.cos a]

/-- The `ry` factor (line 566). -/
def rotY (a : ℝ) : Matrix (Fin 3) (Fin 3) ℝ :=
  !![Real.cos a, 0, Real.sin a; 0, 1, 0; -Real.sin a, 0, Real.cos a]

/-- The `rz` factor (line 568). -/
def rotZ (a : ℝ) : Matrix (Fin 3) (Fin 3) ℝ :=
  !![Real.cos a, Real.sin a, 0; -Real.sin a, Real.cos a, 0; 0, 0, 1]

/-- Embedding of `angles_to_rotation_matrix` for 3 angles
(surfa/transform/affine.py lines 535-573): convert to radians when
`degrees` is set and return `rx @ ry @ rz`. -/
def anglesToRotationMatrix (r : Fin 3 → ℝ) (degrees : Bool) :
    Matrix (Fin 3) (Fin 3) ℝ :=
  let rot : Fin 3 → ℝ := if degrees then fun i => r i * (π / 180) else r
  rotX (rot 0) * rotY (rot 1) * rotZ (rot 2)

/-- Embedding of `rotation_matrix_to_angles` for a 3x3 matrix
(surfa/transform/affine.py lines 513-532). -/
def rotationMatrixToAngles (M : Matrix (Fin 3) (Fin 3) ℝ) (degrees : Bool) :
    Fin 3 → ℝ :=
  let rad : Fin 3 → ℝ :=
    ![atan2 (M 1 2) (M 2 2),
      atan2 (M 0 2) (Real.sqrt ((M 1 2) ^ 2 + (M 2 2) ^ 2)),
      atan2 (M 0 1) (M 0 0)]
  if degrees then fun i => rad i * (180 / π) else rad

/-- The 3x3 upper-unitriangular shear block written by `compose_affine`
(lines 479-483): `S[0][1], S[0][2], S[1][2]` hold the shear values. -/
def shearBlock (sh : Fin 3 → ℝ) : Matrix (Fin 3) (Fin 3) ℝ :=
  !![1, sh 0, sh 1; 0, 1, sh 2; 0, 0, 1]

/-- Embedding of `compose_affine` for 3-D transforms
(surfa/transform/affine.py lines 407-487): the matrix `T @ R @ Z @ S`
of translation, rotation, scale and shear factors. -/
def composeAffine3 (t r s sh : Fin 3 → ℝ) (degrees : Bool) :
    Matrix (Fin 4) (Fin 4) ℝ :=
  affineMat 1 t * affineMat (anglesToRotationMatrix r degrees) (fun _ => 0) *
    affineMat (Matrix.diagonal s) (fun _ => 0) *
    affineMat (shearBlock sh) (fun _ => 0)

/-- Top-left 3x3 block of a homogeneous 4x4 matrix
(`matrix[:ndim, :ndim]`). -/
def block3 (M : Matrix (Fin 4) (Fin 4) ℝ) : Matrix (Fin 3) (Fin 3) ℝ :=
  Matrix.of fun i j => M i.castSucc j.castSucc

/-- Last column of the first three rows (`matrix[:ndim, -1]`). -/
def translation3 (M : Matrix (Fin 4) (Fin 4) ℝ) : Fin 3 → ℝ :=
  fun i => M i.castSucc (Fin.last 3)

/-- Contract of `np.linalg.qr` on an invertible 3x3 block: `q` has
orthonormal columns, `r` is upper triangular, and `q @ r` reproduces the
input. -/
def IsQR (A q r : Matrix (Fin 3) (Fin 3) ℝ) : Prop :=
  q.transpose * q = 1 ∧ (∀ i j : Fin 3, (j : ℕ) < (i : ℕ) → r i j = 0) ∧ q * r = A

/-- Result tuple of `Affine.decompose`. -/
structure Decomposition where
  translation : Fin 3 → ℝ
  rotation : Fin 3 → ℝ
  scale : Fin 3 → ℝ
  shear : Fin 3 → ℝ

/-- Embedding of `Affine.decompose` for a 3-D affine
(surfa/transform/affine.py lines 215-248), parameterized by the QR
factorization `(q, r)` that `np.linalg.qr` returned for the top-left
block: translation is the last column; scale the absolute diagonal of
`r`; the sign-correction `p` has `r`'s diagonal signs; rotation angles
are extracted from `q @ p`; shear is read off `(p @ r)` with rows
normalized by scale. -/
def decompose (M : Matrix (Fin 4) (Fin 4) ℝ) (q r : Matrix (Fin 3) (Fin 3) ℝ)
    (degrees : Bool) : Decomposition :=
  let translation := translation3 M
  let scale : Fin 3 → ℝ := fun i => |r i i|
  let p : Matrix (Fin 3) (Fin 3) ℝ := Matrix.diagonal fun i => r i i / scale i
  let rotation := rotationMatrixToAngles (q * p) degrees
  let shear : Fin 3 → ℝ :=
    ![(p * r) 0 1 / scale 0, (p * r) 0 2 / scale 0, (p * r) 1 2 / scale 1]
  ⟨translation, rotation, scale, shear⟩

theorem block3_affineMat (L : Matrix (Fin 3) (Fin 3) ℝ) (t : Fin 3 → ℝ) :
    block3 (affineMat L t) = L := by
  ext i j
  exact affineMat_cast_cast L t i j

theorem translation3_affineMat (L : Matrix (Fin 3) (Fin 3) ℝ) (t : Fin 3 → ℝ) :
    translation3 (affineMat L t) = t := by
  funext i
  exact affineMat_cast_last L t i

theorem composeAffine3_eq (t r s sh : Fin 3 → ℝ) (degrees : Bool) :
    composeAffine3 t r s sh degrees =
      affineMat (anglesToRotationMatrix r degrees * Matrix.diagonal s * shearBlock sh)
        t := by
  unfold composeAffine3
  rw [affineMat_mul, affineMat_mul, affineMat_mul, one_mul]
  congr 1
  funext i
  simp [Matrix.mulVec, Matrix.dotProduct]

theorem shearBlock_zero : shearBlock (fun _ => 0) = 1 := by
  ext i j
  fin_cases i <;> fin_cases j <;> simp [shearBlock, Matrix.one_apply, Matrix.vecHead, Matrix.vecTail]

theorem rotX_zero : rotX 0 = 1 := by
  ext i j
  fin_cases i <;> fin_cases j <;> simp [rotX, Matrix.one_apply, Matrix.vecHead, Matrix.vecTail]

theorem rotY_zero : rotY 0 = 1 := by
  ext i j
  fin_cases i <;> fin_cases j <;> simp [rotY, Matrix.one_apply, Matrix.vecHead, Matrix.vecTail]

theorem rotZ_zero : rotZ 0 = 1 := by
  ext i j
  fin_cases i <;> fin_cases j <;> simp [rotZ, Matrix.one_apply, Matrix.vecHead, Matrix.vecTail]

theorem rotX_orth (a : ℝ) : (rotX a).transpose * rotX a = 1 := by
  ext i j
  fin_cases i <;> fin_cases j <;>
    simp [rotX, Matrix.mul_apply, Fin.sum_univ_three, Matrix.transpose_apply,
      Matrix.one_apply, Matrix.vecHead, Matrix.vecTail] <;>
    first
      | linear_combination Real.sin_sq_add_cos_sq a
      | ring1

theorem rotY_orth (a : ℝ) : (rotY a).transpose * rotY a = 1 := by
  ext i j
  fin_cases i <;> fin_cases j <;>
    simp [rotY, Matrix.mul_apply, Fin.sum_univ_three, Matrix.transpose_apply,
      Matrix.one_apply, Matrix.vecHead, Matrix.vecTail] <;>
    first
      | linear_combination Real.sin_sq_add_cos_sq a
      | ring1

theorem rotZ_orth (a : ℝ) : (rotZ a).transpose * rotZ a = 1 := by
  ext i j
  fin_cases i <;> fin_cases j <;>
    simp [rotZ, Matrix.mul_apply, Fin.sum_univ_three, Matrix.transpose_apply,
      Matrix.one_apply, Matrix.vecHead, Matrix.vecTail] <;>
    first
      | linear_combination Real.sin_sq_add_cos_sq a
      | ring1

theorem rot3_orth (a b c : ℝ) :
    (rotX a * rotY b * rotZ c).transpose * (rotX a * rotY b * rotZ c) = 1 := by
  simp only [Matrix.transpose_mul, Matrix.mul_assoc]
  rw [← Matrix.mul_assoc ((rotX a).transpose) (rotX a), rotX_orth, one_mul]
  rw [← Matrix.mul_assoc ((rotY b).transpose) (rotY b), rotY_orth, one_mul, rotZ_orth]

theorem anglesToRotationMatrix_orth (r : Fin 3 → ℝ) (degrees : Bool) :
    (anglesToRotationMatrix r degrees).transpose * anglesToRotationMatrix r degrees =
      1 := by
  cases degrees <;> exact rot3_orth _ _ _

/-- Explicit entries of `rx @ ry @ rz`. -/
theorem rotXYZ_entries (a b c : ℝ) :
    rotX a * rotY b * rotZ c =
      !![Real.cos b * Real.cos c, Real.cos b * Real.sin c, Real.sin b;
         -Real.sin a * Real.sin b * Real.cos c - Real.cos a * Real.sin c,
           -Real.sin a * Real.sin b * Real.sin c + Real.cos a * Real.cos c,
           Real.sin a * Real.cos b;
         -Real.cos a * Real.sin b * Real.cos c + Real.sin a * Real.sin c,
           -Real.cos a * Real.sin b * Real.sin c - Real.sin a * Real.cos c,
           Real.cos a * Real.cos b] := by
  ext i j
  fin_cases i <;> fin_cases j <;>
    simp [rotX, rotY, rotZ, Matrix.mul_apply, Fin.sum_univ_three, Matrix.vecHead,
      Matrix.vecTail] <;> ring

/-- Uniqueness of the QR factorization of `R * diag s` for orthogonal `R`
and positive `s`: any factorization numpy may return differs from
`(R, diag s)` only by a diagonal sign matrix. -/
theorem qr_unique (R q rr : Matrix (Fin 3) (Fin 3) ℝ) (s : Fin 3 → ℝ)
    (hR : R.transpose * R = 1) (hs : ∀ i, 0 < s i)
    (horth : q.transpose * q = 1)
    (hup : ∀ i j : Fin 3, (j : ℕ) < (i : ℕ) → rr i j = 0)
    (hfact : q * rr = R * Matrix.diagonal s) :
    ∃ d : Fin 3 → ℝ, (∀ i, d i = 1 ∨ d i = -1) ∧
      q = R * Matrix.diagonal d ∧
      rr = Matrix.diagonal fun i => d i * s i := by
  have hRR : R * R.transpose = 1 := Matrix.mul_eq_one_comm.mp hR
  set U : Matrix (Fin 3) (Fin 3) ℝ := R.transpose * q with hUdef
  have hUorth : U.transpose * U = 1 := by
    rw [hUdef, Matrix.transpose_mul, Matrix.transpose_transpose]
    simp only [Matrix.mul_assoc]
    rw [← Matrix.mul_assoc R R.transpose, hRR, one_mul]
    exact horth
  have hUr : U * rr = Matrix.diagonal s := by
    rw [hUdef, Matrix.mul_assoc, hfact, ← Matrix.mul_assoc, hR, one_mul]
  have h10 : rr 1 0 = 0 := hup 1 0 (by norm_num)
  have h20 : rr 2 0 = 0 := hup 2 0 (by norm_num)
  have h21 : rr 2 1 = 0 := hup 2 1 (by norm_num)
  have E00 : U 0 0 * rr 0 0 = s 0 := by
    have h := congrFun (congrFun hUr 0) 0
    simpa [Matrix.mul_apply, Fin.sum_univ_three, h10, h20, Matrix.diagonal] using h
  have E10 : U 1 0 * rr 0 0 = 0 := by
    have h := congrFun (congrFun hUr 1) 0
    simpa [Matrix.mul_apply, Fin.sum_univ_three, h10, h20, Matrix.diagonal] using h
  have E20 : U 2 0 * rr 0 0 = 0 := by
    have h := congrFun (congrFun hUr 2) 0
    simpa [Matrix.mul_apply, Fin.sum_univ_three, h10, h20, Matrix.diagonal] using h
  have E11 : U 1 0 * rr 0 1 + U 1 1 * rr 1 1 = s 1 := by
    have h := congrFun (congrFun hUr 1) 1
    simpa [Matrix.mul_apply, Fin.sum_univ_three, h21, Matrix.diagonal] using h
  have E21 : U 2 0 * rr 0 1 + U 2 1 * rr 1 1 = 0 := by
    have h := congrFun (congrFun hUr 2) 1
    simpa [Matrix.mul_apply, Fin.sum_univ_three, h21, Matrix.diagonal] using h
  have hr00 : rr 0 0 ≠ 0 := by
    intro h
    rw [h, mul_zero] at E00
    have := hs 0
    linarith
  have hU10 : U 1 0 = 0 := by
    rcases mul_eq_zero.mp E10 with h | h
    · exact h
    · exact absurd h hr00
  have hU20 : U 2 0 = 0 := by
    rcases mul_eq_zero.mp E20 with h | h
    · exact h
    · exact absurd h hr00
  have hr11 : rr 1 1 ≠ 0 := by
    intro h
    rw [hU10, zero_mul, zero_add, h, mul_zero] at E11
    have := hs 1
    linarith
  have hU21 : U 2 1 = 0 := by
    rw [hU20, zero_mul, zero_add] at E21
    rcases mul_eq_zero.mp E21 with h | h
    · exact h
    · exact absurd h hr11
  have F00 : U 0 0 * U 0 0 + U 1 0 * U 1 0 + U 2 0 * U 2 0 = 1 := by
    have h := congrFun (congrFun hUorth 0) 0
    simpa [Matrix.mul_apply, Fin.sum_univ_three, Matrix.transpose_apply,
      Matrix.one_apply] using h
  have F01 : U 0 0 * U 0 1 + U 1 0 * U 1 1 + U 2 0 * U 2 1 = 0 := by
    have h := congrFun (congrFun hUorth 0) 1
    simpa [Matrix.mul_apply, Fin.sum_univ_three, Matrix.transpose_apply,
      Matrix.one_apply] using h
  have F02 : U 0 0 * U 0 2 + U 1 0 * U 1 2 + U 2 0 * U 2 2 = 0 := by
    have h := congrFun (congrFun hUorth 0) 2
    simpa [Matrix.mul_apply, Fin.sum_univ_three, Matrix.transpose_apply,
      Matrix.one_apply] using h
  have F11 : U 0 1 * U 0 1 + U 1 1 * U 1 1 + U 2 1 * U 2 1 = 1 := by
    have h := congrFun (congrFun hUorth 1) 1
    simpa [Matrix.mul_apply, Fin.sum_univ_three, Matrix.transpose_apply,
      Matrix.one_apply] using h
  have F12 : U 0 1 * U 0 2 + U 1 1 * U 1 2 + U 2 1 * U 2 2 = 0 := by
    have h := congrFun (congrFun hUorth 1) 2
    simpa [Matrix.mul_apply, Fin.sum_univ_three, Matrix.transpose_apply,
      Matrix.one_apply] using h
  have F22 : U 0 2 * U 0 2 + U 1 2 * U 1 2 + U 2 2 * U 2 2 = 1 := by
    have h := congrFun (congrFun hUorth 2) 2
    simpa [Matrix.mul_apply, Fin.sum_univ_three, Matrix.transpose_apply,
      Matrix.one_apply] using h
  have hU00sq : U 0 0 * U 0 0 = 1 := by
    rw [hU10, hU20] at F00
    linarith
  have hU00ne : U 0 0 ≠ 0 := by
    intro h
    rw [h, mul_zero] at hU00sq
    linarith
  have hU01 : U 0 1 = 0 := by
    rw [hU10, hU20, hU21] at F01
    rcases mul_eq_zero.mp (by linarith : U 0 0 * U 0 1 = 0) with h | h
    · exact absurd h hU00ne
    · exact h
  have hU02 : U 0 2 = 0 := by
    rw [hU10, hU20] at F02
    rcases mul_eq_zero.mp (by linarith : U 0 0 * U 0 2 = 0) with h | h
    · exact absurd h hU00ne
    · exact h
  have hU11sq : U 1 1 * U 1 1 = 1 := by
    rw [hU01, hU21] at F11
    linarith
  have hU11ne : U 1 1 ≠ 0 := by
    intro h
    rw [h, mul_zero] at hU11sq
    linarith
  have hU12 : U 1 2 = 0 := by
    rw [hU01, hU21] at F12
    rcases mul_eq_zero.mp (by linarith : U 1 1 * U 1 2 = 0) with h | h
    · exact absurd h hU11ne
    · exact h
  have hU22sq : U 2 2 * U 2 2 = 1 := by
    rw [hU02, hU12] at F22
    linarith
  have hd : ∀ i : Fin 3, U i i = 1 ∨ U i i = -1 := by
    intro i
    fin_cases i
    · exact mul_self_eq_one_iff.mp hU00sq
    · exact mul_self_eq_one_iff.mp hU11sq
    · exact mul_self_eq_one_iff.mp hU22sq
  have hUdiag : U = Matrix.diagonal fun i => U i i := by
    ext i j
    fin_cases i <;> fin_cases j <;>
      simp [Matrix.diagonal, hU01, hU02, hU10, hU12, hU20, hU21]
  have hUU : U * U = 1 := by
    rw [hUdiag, Matrix.diagonal_mul_diagonal]
    rw [show (fun i => U i i * U i i) = fun _ : Fin 3 => (1 : ℝ) from funext fun i => by
      fin_cases i
      · exact hU00sq
      · exact hU11sq
      · exact hU22sq]
    exact Matrix.diagonal_one
  have hq : q = R * Matrix.diagonal fun i => U i i := by
    have hq1 : R * U = q := by
      rw [hUdef, ← Matrix.mul_assoc, hRR, one_mul]
    rw [← hq1]
    exact congrArg (fun M => R * M) hUdiag
  have hrr : rr = Matrix.diagonal fun i => U i i * s i := by
    have h1 : rr = U * Matrix.diagonal s := by
      have h2 : U * (U * rr) = U * Matrix.diagonal s := by rw [hUr]
      rw [← Matrix.mul_assoc, hUU, one_mul] at h2
      exact h2
    rw [h1]
    conv_lhs => rw [hUdiag]
    exact Matrix.diagonal_mul_diagonal _ _
  exact ⟨fun i => U i i, hd, hq, hrr⟩

/-- `atan2` recovers an angle from sine and cosine scaled by any positive
factor, for angles in numpy's principal range `(-pi, pi]`. -/
theorem atan2_cos_sin (θ c : ℝ) (hc : 0 < c) (hθ : θ ∈ Set.Ioc (-π) π) :
    atan2 (Real.sin θ * c) (Real.cos θ * c) = θ := by
  unfold atan2
  have h : ((Real.cos θ * c : ℝ) : ℂ) + ((Real.sin θ * c : ℝ) : ℂ) * Complex.I =
      (c : ℂ) * (Complex.cos θ + Complex.sin θ * Complex.I) := by
    rw [← Complex.ofReal_cos, ← Complex.ofReal_sin]
    push_cast
    ring
  rw [h, Complex.arg_real_mul _ hc, Complex.arg_cos_add_sin_mul_I hθ]

/-- The Euler angles extracted from `rx @ ry @ rz` are the original three
angles, provided the first and third lie in `(-pi, pi]` and the middle one
strictly inside `(-pi/2, pi/2)`. -/
theorem rotationAngles_roundtrip_rad (x y z : ℝ)
    (hx : x ∈ Set.Ioc (-π) π) (hy : y ∈ Set.Ioo (-(π / 2)) (π / 2))
    (hz : z ∈ Set.Ioc (-π) π) :
    rotationMatrixToAngles (rotX x * rotY y * rotZ z) false = ![x, y, z] := by
  have hπ := Real.pi_pos
  have hcy : 0 < Real.cos y := Real.cos_pos_of_mem_Ioo hy
  rw [rotXYZ_entries]
  funext i
  fin_cases i
  · show atan2 (Real.sin x * Real.cos y) (Real.cos x * Real.cos y) = x
    exact atan2_cos_sin x (Real.cos y) hcy hx
  · show atan2 (Real.sin y)
      (Real.sqrt ((Real.sin x * Real.cos y) ^ 2 + (Real.cos x * Real.cos y) ^ 2)) = y
    have h1 : (Real.sin x * Real.cos y) ^ 2 + (Real.cos x * Real.cos y) ^ 2 =
        Real.cos y ^ 2 := by
      linear_combination (Real.cos y ^ 2) * Real.sin_sq_add_cos_sq x
    rw [h1, Real.sqrt_sq hcy.le]
    have hy2 : y ∈ Set.Ioc (-π) π :=
      ⟨by linarith [hy.1], by linarith [hy.2]⟩
    have h2 := atan2_cos_sin y 1 one_pos hy2
    rw [mul_one, mul_one] at h2
    exact h2
  · show atan2 (Real.cos y * Real.sin z) (Real.cos y * Real.cos z) = z
    rw [mul_comm (Real.cos y) (Real.sin z), mul_comm (Real.cos y) (Real.cos z)]
    exact atan2_cos_sin z (Real.cos y) hcy hz

/-- Conversion of a degree range into the radian range used by the
extraction lemma. -/
theorem deg_range_Ioc {v : ℝ} (h : v ∈ Set.Ioc (-180 : ℝ) 180) :
    v * (π / 180) ∈ Set.Ioc (-π) π := by
  have hπ := Real.pi_pos
  have hpos : (0 : ℝ) < π / 180 := by positivity
  constructor
  · have := mul_lt_mul_of_pos_right h.1 hpos
    nlinarith
  · have := mul_le_mul_of_nonneg_right h.2 hpos.le
    nlinarith

theorem deg_range_Ioo {v : ℝ} (h : v ∈ Set.Ioo (-90 : ℝ) 90) :
    v * (π / 180) ∈ Set.Ioo (-(π / 2)) (π / 2) := by
  have hπ := Real.pi_pos
  have hpos : (0 : ℝ) < π / 180 := by positivity
  constructor
  · have := mul_lt_mul_of_pos_right h.1 hpos
    nlinarith
  · have := mul_lt_mul_of_pos_right h.2 hpos
    nlinarith

/-- C4 (amended): composing an affine from translation `t`, rotation
angles `r` in degrees (first and third in `(-180, 180]`, middle strictly
inside `(-90, 90)`), strictly positive scale `s`, and zero shear, then
decomposing - with any QR factorization satisfying numpy's contract -
recovers exactly `(t, r, s, 0)`. -/
theorem c4_compose_decompose_roundtrip (t r s : Fin 3 → ℝ)
    (q rr : Matrix (Fin 3) (Fin 3) ℝ)
    (hs : ∀ i, 0 < s i)
    (hx : r 0 ∈ Set.Ioc (-180 : ℝ) 180)
    (hy : r 1 ∈ Set.Ioo (-90 : ℝ) 90)
    (hz : r 2 ∈ Set.Ioc (-180 : ℝ) 180)
    (hqr : IsQR (block3 (composeAffine3 t r s (fun _ => 0) true)) q rr) :
    (decompose (composeAffine3 t r s (fun _ => 0) true) q rr true).translation = t ∧
    (decompose (composeAffine3 t r s (fun _ => 0) true) q rr true).rotation = r ∧
    (decompose (composeAffine3 t r s (fun _ => 0) true) q rr true).scale = s ∧
    (decompose (composeAffine3 t r s (fun _ => 0) true) q rr true).shear =
      fun _ => 0 := by
  have hπ := Real.pi_pos
  obtain ⟨horth, hup, hfact⟩ := hqr
  have hblock : block3 (composeAffine3 t r s (fun _ => 0) true) =
      anglesToRotationMatrix r true * Matrix.diagonal s := by
    rw [composeAffine3_eq, block3_affineMat, shearBlock_zero, mul_one]
  rw [hblock] at hfact
  obtain ⟨d, hd, hqe, hrre⟩ := qr_unique (anglesToRotationMatrix r true) q rr s
    (anglesToRotationMatrix_orth r true) hs horth hup hfact
  have hrdiag : ∀ i, rr i i = d i * s i := fun i => by
    rw [hrre]
    exact Matrix.diagonal_apply_eq _ i
  have habs : ∀ i, |rr i i| = s i := by
    intro i
    rw [hrdiag i]
    rcases hd i with h | h <;> rw [h]
    · rw [one_mul, abs_of_pos (hs i)]
    · rw [neg_one_mul, abs_neg, abs_of_pos (hs i)]
  have hp : (Matrix.diagonal fun i => rr i i / |rr i i|) = Matrix.diagonal d := by
    refine congrArg Matrix.diagonal (funext fun i => ?_)
    rw [habs i, hrdiag i]
    rcases hd i with h | h <;> rw [h]
    · rw [one_mul, div_self (ne_of_gt (hs i))]
    · rw [neg_one_mul, neg_div, div_self (ne_of_gt (hs i))]
  have hdd : (fun i => d i * d i) = fun _ : Fin 3 => (1 : ℝ) :=
    funext fun i => by rcases hd i with h | h <;> rw [h] <;> norm_num
  have hqp : q * (Matrix.diagonal fun i => rr i i / |rr i i|) =
      anglesToRotationMatrix r true := by
    rw [hp, hqe, Matrix.mul_assoc, Matrix.diagonal_mul_diagonal, hdd,
      Matrix.diagonal_one, mul_one]
  have hangles : rotationMatrixToAngles (anglesToRotationMatrix r true) true = r := by
    have hrad := rotationAngles_roundtrip_rad (r 0 * (π / 180)) (r 1 * (π / 180))
      (r 2 * (π / 180)) (deg_range_Ioc hx) (deg_range_Ioo hy) (deg_range_Ioc hz)
    have hform : anglesToRotationMatrix r true =
        rotX (r 0 * (π / 180)) * rotY (r 1 * (π / 180)) * rotZ (r 2 * (π / 180)) := rfl
    funext i
    have hdeg : rotationMatrixToAngles (anglesToRotationMatrix r true) true i =
        rotationMatrixToAngles (anglesToRotationMatrix r true) false i * (180 / π) := rfl
    rw [hdeg, hform, hrad]
    fin_cases i
    · show r 0 * (π / 180) * (180 / π) = r 0
      field_simp
    · show r 1 * (π / 180) * (180 / π) = r 1
      field_simp
    · show r 2 * (π / 180) * (180 / π) = r 2
      field_simp
  have hpr : (Matrix.diagonal fun i => rr i i / |rr i i|) * rr =
      Matrix.diagonal fun i => d i * (d i * s i) := by
    rw [hp]
    conv_lhs => rw [hrre]
    exact Matrix.diagonal_mul_diagonal _ _
  refine ⟨?_, ?_, ?_, ?_⟩
  · show translation3 (composeAffine3 t r s (fun _ => 0) true) = t
    rw [composeAffine3_eq, translation3_affineMat]
  · show rotationMatrixToAngles
      (q * Matrix.diagonal fun i => rr i i / |rr i i|) true = r
    rw [hqp, hangles]
  · show (fun i => |rr i i|) = s
    exact funext habs
  · show (![((Matrix.diagonal fun i => rr i i / |rr i i|) * rr) 0 1 / |rr 0 0|,
      ((Matrix.diagonal fun i => rr i i / |rr i i|) * rr) 0 2 / |rr 0 0|,
      ((Matrix.diagonal fun i => rr i i / |rr i i|) * rr) 1 2 / |rr 1 1|] :
        Fin 3 → ℝ) = fun _ => 0
    rw [hpr]
    funext i
    fin_cases i <;>
      simp [Matrix.diagonal_apply_ne, Fin.ext_iff]

/-- C4 counterexample: for rotation `r = (0, 120, 0)` degrees - all angles
within the claimed plus-or-minus 180-degree range, scale 1, translation 0,
shear 0 - the composed block is the orthogonal matrix `ry(120)`, so
`(ry(120), I)` is a valid QR factorization, yet the decomposition returns
a first rotation angle of 180 degrees instead of the original 0: the
extraction formulas can only recover the middle angle from `(-90, 90)`. -/
theorem c4_counterexample_middle_angle :
    IsQR (block3 (composeAffine3 (fun _ => 0) ![0, 120, 0] (fun _ => 1)
        (fun _ => 0) true))
      (rotY (120 * (π / 180))) 1 ∧
    (decompose (composeAffine3 (fun _ => 0) ![0, 120, 0] (fun _ => 1)
        (fun _ => 0) true)
      (rotY (120 * (π / 180))) 1 true).rotation 0 = 180 ∧
    ((180 : ℝ) ≠ (![0, 120, 0] : Fin 3 → ℝ) 0) := by
  have hang : anglesToRotationMatrix ![0, 120, 0] true = rotY (120 * (π / 180)) := by
    have hform : anglesToRotationMatrix ![0, 120, 0] true =
        rotX ((![0, 120, 0] : Fin 3 → ℝ) 0 * (π / 180)) *
          rotY ((![0, 120, 0] : Fin 3 → ℝ) 1 * (π / 180)) *
          rotZ ((![0, 120, 0] : Fin 3 → ℝ) 2 * (π / 180)) := rfl
    rw [hform]
    rw [show (![0, 120, 0] : Fin 3 → ℝ) 0 = 0 from rfl,
      show (![0, 120, 0] : Fin 3 → ℝ) 1 = 120 from rfl,
      show (![0, 120, 0] : Fin 3 → ℝ) 2 = 0 from rfl]
    rw [zero_mul, rotX_zero, rotZ_zero, one_mul, mul_one]
  have hblock : block3 (composeAffine3 (fun _ => 0) ![0, 120, 0] (fun _ => 1)
      (fun _ => 0) true) = rotY (120 * (π / 180)) := by
    rw [composeAffine3_eq, block3_affineMat, shearBlock_zero, mul_one, hang]
    rw [show (Matrix.diagonal fun _ : Fin 3 => (1 : ℝ)) = 1 from Matrix.diagonal_one,
      mul_one]
  have hone : (Matrix.diagonal fun i : Fin 3 =>
      (1 : Matrix (Fin 3) (Fin 3) ℝ) i i / |(1 : Matrix (Fin 3) (Fin 3) ℝ) i i|) = 1 := by
    rw [show (fun i : Fin 3 => (1 : Matrix (Fin 3) (Fin 3) ℝ) i i /
        |(1 : Matrix (Fin 3) (Fin 3) ℝ) i i|) = fun _ : Fin 3 => (1 : ℝ) from
      funext fun i => by rw [Matrix.one_apply_eq]; norm_num]
    exact Matrix.diagonal_one
  refine ⟨⟨rotY_orth _, fun i j hij => Matrix.one_apply_ne
      (Fin.ne_of_val_ne (Nat.ne_of_gt hij)), by rw [mul_one, hblock]⟩, ?_, ?_⟩
  · show rotationMatrixToAngles (rotY (120 * (π / 180)) *
        Matrix.diagonal fun i => (1 : Matrix (Fin 3) (Fin 3) ℝ) i i /
          |(1 : Matrix (Fin 3) (Fin 3) ℝ) i i|) true 0 = 180
    rw [hone, mul_one]
    show atan2 ((rotY (120 * (π / 180))) 1 2) ((rotY (120 * (π / 180))) 2 2) *
        (180 / π) = 180
    show atan2 0 (Real.cos (120 * (π / 180))) * (180 / π) = 180
    have ha : (120 : ℝ) * (π / 180) = π - π / 3 := by ring
    rw [ha, Real.cos_pi_sub, Real.cos_pi_div_three]
    have hatan : atan2 0 (-(1 / 2)) = π := by
      unfold atan2
      rw [show ((-(1 / 2) : ℝ) : ℂ) + ((0 : ℝ) : ℂ) * Complex.I =
          ((-(1 / 2) : ℝ) : ℂ) by push_cast; ring]
      exact Complex.arg_ofReal_of_neg (by norm_num)
    rw [hatan]
    field_simp
  · norm_num

/-- Witness for C4's amended round-trip at the identity components. -/
theorem c4_witness :
    ((∀ i : Fin 3, (0 : ℝ) < (fun _ : Fin 3 => (1 : ℝ)) i) ∧
      (fun _ : Fin 3 => (0 : ℝ)) 0 ∈ Set.Ioc (-180 : ℝ) 180 ∧
      (fun _ : Fin 3 => (0 : ℝ)) 1 ∈ Set.Ioo (-90 : ℝ) 90 ∧
      (fun _ : Fin 3 => (0 : ℝ)) 2 ∈ Set.Ioc (-180 : ℝ) 180 ∧
      IsQR (block3 (composeAffine3 (fun _ => 0) (fun _ => 0) (fun _ => 1)
        (fun _ => 0) true)) 1 1) ∧
    ((decompose (composeAffine3 (fun _ => 0) (fun _ => 0) (fun _ => 1)
        (fun _ => 0) true) 1 1 true).translation = fun _ => 0) ∧
    ((decompose (composeAffine3 (fun _ => 0) (fun _ => 0) (fun _ => 1)
        (fun _ => 0) true) 1 1 true).rotation = fun _ => 0) ∧
    ((decompose (composeAffine3 (fun _ => 0) (fun _ => 0) (fun _ => 1)
        (fun _ => 0) true) 1 1 true).scale = fun _ => 1) ∧
    ((decompose (composeAffine3 (fun _ => 0) (fun _ => 0) (fun _ => 1)
        (fun _ => 0) true) 1 1 true).shear = fun _ => 0) := by
  have hblock : block3 (composeAffine3 (fun _ => 0) (fun _ => 0) (fun _ => 1)
      (fun _ => 0) true) = 1 := by
    rw [composeAffine3_eq, block3_affineMat, shearBlock_zero, mul_one]
    rw [show (Matrix.diagonal fun _ : Fin 3 => (1 : ℝ)) = 1 from Matrix.diagonal_one,
      mul_one]
    have hform : anglesToRotationMatrix (fun _ : Fin 3 => (0 : ℝ)) true =
        rotX (0 * (π / 180)) * rotY (0 * (π / 180)) * rotZ (0 * (π / 180)) := rfl
    rw [hform, zero_mul, rotX_zero, rotY_zero, rotZ_zero, one_mul, one_mul]
  have hqr : IsQR (block3 (composeAffine3 (fun _ => 0) (fun _ => 0) (fun _ => 1)
      (fun _ => 0) true)) 1 1 :=
    ⟨by rw [Matrix.transpose_one, one_mul],
     fun i j hij => Matrix.one_apply_ne (Fin.ne_of_val_ne (Nat.ne_of_gt hij)),
     by rw [one_mul, hblock]⟩
  have hhyp : (∀ i : Fin 3, (0 : ℝ) < (fun _ : Fin 3 => (1 : ℝ)) i) ∧
      (fun _ : Fin 3 => (0 : ℝ)) 0 ∈ Set.Ioc (-180 : ℝ) 180 ∧
      (fun _ : Fin 3 => (0 : ℝ)) 1 ∈ Set.Ioo (-90 : ℝ) 90 ∧
      (fun _ : Fin 3 => (0 : ℝ)) 2 ∈ Set.Ioc (-180 : ℝ) 180 ∧
      IsQR (block3 (composeAffine3 (fun _ => 0) (fun _ => 0) (fun _ => 1)
        (fun _ => 0) true)) 1 1 :=
    ⟨fun i => one_pos, ⟨by norm_num, by norm_num⟩, ⟨by norm_num, by norm_num⟩,
      ⟨by norm_num, by norm_num⟩, hqr⟩
  exact ⟨hhyp, c4_compose_decompose_roundtrip (fun _ => 0) (fun _ => 0) (fun _ => 1)
    1 1 hhyp.1 hhyp.2.1 hhyp.2.2.1 hhyp.2.2.2.1 hhyp.2.2.2.2⟩

end ComposeDecompose

/-! ## C8: the MGH codec (surfa/io/framed.py lines 146-386)

The byte stream is a `List ℕ` (one entry per byte).  Big-endian unsigned
integers are encoded concretely; the float32 codec is external to the
embedding (a Python float is serialized by numpy's f4 routines), so it is
modelled by its contract: a 4-byte encoding whose decode comes back within
float32 relative precision.  Data elements are likewise read and written
through a per-dtype element codec of fixed width (the `>u1`/`>i2`/...
converters of `read_bytes`/`write_bytes`); the embedding is parameterized
over it, and an exact round-trip on the stored values is the dtype
hypothesis of the theorem.  The tagged metadata records of surfa/io/fsio.py
(not part of the sources) are modelled from the spec as
`(tag: int, length: int, payload: length bytes)` with 4-byte tag and
length fields; the loader's per-tag handling consumes exactly `length`
payload bytes, which is also its aggregate effect in the code. -/

section MghCodec

/-- Big-endian 4-byte encoding of an unsigned 32-bit integer. -/
def encU4 (n : ℕ) : List ℕ :=
  [n / 16777216 % 256, n / 65536 % 256, n / 256 % 256, n % 256]

/-- Big-endian decoding of a byte list (used for the u4 and u2 fields). -/
def decBE (l : List ℕ) : ℕ :=
  l.foldl (fun a b => a * 256 + b) 0

/-- Big-endian 2-byte encoding of an unsigned 16-bit integer. -/
def encU2 (n : ℕ) : List ℕ :=
  [n / 256 % 256, n % 256]

theorem decBE_encU4 (n : ℕ) (h : n < 4294967296) : decBE (encU4 n) = n := by
  simp only [decBE, encU4, List.foldl]
  omega

theorem decBE_encU2 (n : ℕ) (h : n < 65536) : decBE (encU2 n) = n := by
  simp only [decBE, encU2, List.foldl]
  omega

/-- Reads `k` raw bytes from the stream. -/
def rdBytes (k : ℕ) (st : List ℕ) : Option (List ℕ × List ℕ) :=
  if k ≤ st.length then some (st.take k, st.drop k) else none

theorem rdBytes_exact {k : ℕ} (l rest : List ℕ) (h : l.length = k) :
    rdBytes k (l ++ rest) = some (l, rest) := by
  subst h
  rw [rdBytes, if_pos (by simp), List.take_left, List.drop_left]

/-- Reads a sequence of `count` fixed-width records, decoding each. -/
def rdSeq {V : Type} (w : ℕ) (dec : List ℕ → V) :
    ℕ → List ℕ → Option (List V × List ℕ)
  | 0, st => some ([], st)
  | n + 1, st =>
    (rdBytes w st).bind fun p =>
      (rdSeq w dec n p.2).bind fun q => some (dec p.1 :: q.1, q.2)

theorem rdSeq_append {V W : Type} (w : ℕ) (dec : List ℕ → V) (encf : W → List ℕ)
    (xs : List W) (rest : List ℕ) (hlen : ∀ x ∈ xs, (encf x).length = w) :
    rdSeq w dec xs.length ((xs.map encf).flatten ++ rest) =
      some (xs.map fun x => dec (encf x), rest) := by
  induction xs generalizing rest with
  | nil => rfl
  | cons x xs ih =>
    have h1 : rdBytes w ((encf x :: List.map encf xs).flatten ++ rest) =
        some (encf x, (List.map encf xs).flatten ++ rest) := by
      rw [List.flatten_cons, List.append_assoc]
      exact rdBytes_exact _ _ (hlen x (by simp))
    calc rdSeq w dec (x :: xs).length (((x :: xs).map encf).flatten ++ rest)
        = (some (encf x, (List.map encf xs).flatten ++ rest)).bind fun p =>
            (rdSeq w dec xs.length p.2).bind fun q =>
              some (dec p.1 :: q.1, q.2) := by
          rw [List.length_cons, List.map_cons, rdSeq, h1]
      _ = (rdSeq w dec xs.length ((List.map encf xs).flatten ++ rest)).bind fun q =>
            some (dec (encf x) :: q.1, q.2) := rfl
      _ = (some (List.map (fun y => dec (encf y)) xs, rest)).bind fun q =>
            some (dec (encf x) :: q.1, q.2) := by
          rw [ih rest fun y hy => hlen y (by simp [hy])]
      _ = some (List.map (fun y => dec (encf y)) (x :: xs), rest) := rfl

/-- A sequence read with an explicit count equal to the list length. -/
theorem rdSeq_append_count {V W : Type} (w : ℕ) (dec : List ℕ → V)
    (encf : W → List ℕ) (xs : List W) (rest : List ℕ) (count : ℕ)
    (hc : count = xs.length) (hlen : ∀ x ∈ xs, (encf x).length = w) :
    rdSeq w dec count ((xs.map encf).flatten ++ rest) =
      some (xs.map fun x => dec (encf x), rest) := by
  rw [hc]
  exact rdSeq_append w dec encf xs rest hlen

/-- Modelled from the spec: the external float32 byte codec used by
`read_bytes`/`write_bytes` with dtype `>f4`: a 4-byte encoding of a real
number. -/
structure F32Codec where
  enc : ℝ → List ℕ
  dec : List ℕ → ℝ
  hlen : ∀ x, (enc x).length = 4

/-- Per-dtype element codec of fixed byte width (`>u1`, `>i2`, `>i4`,
`>u2`, ... converters). -/
structure ElemCodec (V : Type) where
  width : ℕ
  enc : V → List ℕ
  dec : List ℕ → V
  hlen : ∀ v, (enc v).length = width

/-- The volume handed to `MGHArrayIO.save`: spatial shape, frame count,
Fortran-order flattened data, and geometry. -/
structure MghVolume (V : Type) where
  shape : Fin 3 → ℕ
  nframes : ℕ
  dat : List V
  voxsize : Fin 3 → ℝ
  rotation : Fin 3 → Fin 3 → ℝ
  center : Fin 3 → ℝ

/-- The literal bytes of the string `UNKNOWN`, the phase-encode-direction
payload save always writes. -/
def unknownBytes : List ℕ :=
  [85, 78, 75, 78, 79, 87, 78]

/-- Tag ids (surfa/io/fsio.py, modelled from the spec's tag taxonomy). -/
def tagPedir : ℕ := 1
def tagFieldstrength : ℕ := 2

/-- Field of view written by save: `max(voxsize * volsize)`. -/
def fovOf {V : Type} (v : MghVolume V) : ℝ :=
  max (v.voxsize 0 * (v.shape 0 : ℝ))
    (max (v.voxsize 1 * (v.shape 1 : ℝ)) (v.voxsize 2 * (v.shape 2 : ℝ)))

/-- Embedding of `MGHArrayIO.save` (surfa/io/framed.py lines 285-386) for
a `Volume` with no labels and default metadata: version 1; four u4 shape
dims (frames folded into the fourth); u4 dtype id; u4 DOF 1; u2
valid-geometry flag 1; 3 f4 voxel sizes, 9 f4 rotation entries in
column-major order, 3 f4 center coordinates; 194 zero bytes completing the
254-byte unused header block; the data buffer; 4 f4 scan parameters and
one f4 field-of-view; then the phase-encode-direction tag (payload
`UNKNOWN`) and the field-strength tag. -/
def mghSave {V : Type} (c : F32Codec) (e : ElemCodec V) (dtypeId : ℕ)
    (v : MghVolume V) : List ℕ :=
  encU4 1 ++
  (encU4 (v.shape 0) ++ (encU4 (v.shape 1) ++ (encU4 (v.shape 2) ++
  (encU4 v.nframes ++
  (encU4 dtypeId ++
  (encU4 1 ++
  (encU2 1 ++
  (([v.voxsize 0, v.voxsize 1, v.voxsize 2].map c.enc).flatten ++
  (([v.rotation 0 0, v.rotation 1 0, v.rotation 2 0,
     v.rotation 0 1, v.rotation 1 1, v.rotation 2 1,
     v.rotation 0 2, v.rotation 1 2, v.rotation 2 2].map c.enc).flatten ++
  (([v.center 0, v.center 1, v.center 2].map c.enc).flatten ++
  (List.replicate 194 0 ++
  ((v.dat.map e.enc).flatten ++
  (([(0 : ℝ), 0, 0, 0, fovOf v].map c.enc).flatten ++
  (encU4 tagPedir ++ (encU4 7 ++ (unknownBytes ++
  (encU4 tagFieldstrength ++ (encU4 4 ++ c.enc 0))))))))))))))))))

/-- numpy `squeeze`: drop every axis of extent 1. -/
def squeezeDims (dims : List ℕ) : List ℕ :=
  dims.filter fun d => d ≠ 1

/-- The result of `MGHArrayIO.load` for a `Volume`. -/
structure LoadedVol (V : Type) where
  shape : Fin 3 → ℕ
  nframes : ℕ
  dat : List V
  voxsize : Fin 3 → ℝ
  rotation : Fin 3 → Fin 3 → ℝ
  center : Fin 3 → ℝ

/-- Tag-reading loop of the loader (lines 252-281): read records until
end-of-stream, consuming each record's payload by its length field. -/
def tagLoop : ℕ → List ℕ → Option Unit
  | 0, _ => none
  | fuel + 1, st =>
    if st.isEmpty then some ()
    else
      (rdBytes 4 st).bind fun _p =>
        (rdBytes 4 _p.2).bind fun q =>
          (rdBytes (decBE q.1) q.2).bind fun w => tagLoop fuel w.2

theorem tagLoop_nil (fuel : ℕ) : tagLoop (fuel + 1) [] = some () := by
  rw [tagLoop]
  rfl

/-- Consuming one well-formed tag record. -/
theorem tagLoop_record (fuel : ℕ) (tagB lenB payload rest : List ℕ)
    (h4 : tagB.length = 4) (hl : lenB.length = 4)
    (hp : payload.length = decBE lenB) :
    tagLoop (fuel + 1) (tagB ++ (lenB ++ (payload ++ rest))) = tagLoop fuel rest := by
  rw [tagLoop]
  rw [if_neg (by simp [List.isEmpty_eq_true]; intro h; exact absurd (congrArg List.length h) (by simp [h4]))]
  rw [rdBytes_exact _ _ h4]
  show (rdBytes 4 (lenB ++ (payload ++ rest))).bind _ = _
  rw [rdBytes_exact _ _ hl]
  show (rdBytes (decBE lenB) (payload ++ rest)).bind _ = _
  rw [rdBytes_exact _ _ hp]
  rfl

/-- Geometry block of the loader: if the u2 flag is set, read 3 f4 voxel
sizes, 9 f4 rotation entries (column-major) and 3 f4 center coordinates
then skip the remaining 194 unused bytes; otherwise skip all 254 bytes and
keep the default geometry. -/
def readGeom (c : F32Codec) (flag : ℕ) (st : List ℕ) :
    Option (((Fin 3 → ℝ) × (Fin 3 → Fin 3 → ℝ) × (Fin 3 → ℝ)) × List ℕ) :=
  if flag ≠ 0 then
    (rdSeq 4 c.dec 3 st).bind fun p =>
      (rdSeq 4 c.dec 9 p.2).bind fun q =>
        (rdSeq 4 c.dec 3 q.2).bind fun r =>
          (rdBytes 194 r.2).bind fun w =>
            some (((fun i : Fin 3 => p.1.getD (i : ℕ) 0),
              (fun i j : Fin 3 => q.1.getD ((j : ℕ) * 3 + (i : ℕ)) 0),
              (fun i : Fin 3 => r.1.getD (i : ℕ) 0)), w.2)
  else
    (rdBytes 254 st).bind fun w =>
      some (((fun _ : Fin 3 => (1 : ℝ)),
        (fun i j : Fin 3 => if i = j then (1 : ℝ) else 0),
        (fun _ : Fin 3 => (0 : ℝ))), w.2)

/-- `atype(data.squeeze())`: the `Volume` constructor accepts only 3-D
(single-frame) or 4-D (multi-frame) squeezed data. -/
def mkLoaded {V : Type} (sq : List ℕ) (dat : List V) (vs : Fin 3 → ℝ)
    (rot : Fin 3 → Fin 3 → ℝ) (ctr : Fin 3 → ℝ) : Option (LoadedVol V) :=
  match sq with
  | [a, b, c3] => some ⟨![a, b, c3], 1, dat, vs, rot, ctr⟩
  | [a, b, c3, fr] => some ⟨![a, b, c3], fr, dat, vs, rot, ctr⟩
  | _ => none

/-- Embedding of `MGHArrayIO.load` (surfa/io/framed.py lines 182-283) for
a `Volume`: skip the version; read the four shape dims, dtype id and DOF;
read the u2 geometry flag and the geometry block; read `prod(shape)` data
elements; read the four f4 scan parameters and the f4 field of view; run
the tag loop to end-of-stream; finally build the volume from the squeezed
shape (numpy `squeeze` drops every extent-1 axis). -/
def mghLoad {V : Type} (c : F32Codec) (e : ElemCodec V) (bytes : List ℕ) :
    Option (LoadedVol V) :=
  (rdBytes 4 bytes).bind fun pV =>
    (rdBytes 4 pV.2).bind fun p0 =>
      (rdBytes 4 p0.2).bind fun p1 =>
        (rdBytes 4 p1.2).bind fun p2 =>
          (rdBytes 4 p2.2).bind fun pF =>
            (rdBytes 4 pF.2).bind fun pD =>
              (rdBytes 4 pD.2).bind fun pDof =>
                (rdBytes 2 pDof.2).bind fun pG =>
                  (readGeom c (decBE pG.1) pG.2).bind fun pGeo =>
                    (rdSeq e.width e.dec
                      (decBE p0.1 * decBE p1.1 * decBE p2.1 * decBE pF.1)
                      pGeo.2).bind fun pDat =>
                      (rdSeq 4 c.dec 5 pDat.2).bind fun pScan =>
                        (tagLoop (pScan.2.length + 1) pScan.2).bind fun _ =>
                          mkLoaded
                            (squeezeDims [decBE p0.1, decBE p1.1,
                              decBE p2.1, decBE pF.1])
                            pDat.1 pGeo.1.1 pGeo.1.2.1 pGeo.1.2.2

theorem mkLoaded_three {V : Type} (a b c3 : ℕ) (dat : List V) (vs : Fin 3 → ℝ)
    (rot : Fin 3 → Fin 3 → ℝ) (ctr : Fin 3 → ℝ) :
    mkLoaded [a, b, c3] dat vs rot ctr = some ⟨![a, b, c3], 1, dat, vs, rot, ctr⟩ := rfl

theorem mkLoaded_four {V : Type} (a b c3 fr : ℕ) (dat : List V) (vs : Fin 3 → ℝ)
    (rot : Fin 3 → Fin 3 → ℝ) (ctr : Fin 3 → ℝ) :
    mkLoaded [a, b, c3, fr] dat vs rot ctr =
      some ⟨![a, b, c3], fr, dat, vs, rot, ctr⟩ := rfl

theorem encU4_length (n : ℕ) : (encU4 n).length = 4 := rfl

theorem encU2_length (n : ℕ) : (encU2 n).length = 2 := rfl

theorem decBE_encU2_one : decBE (encU2 1) = 1 := rfl

/-- C8 (amended): saving a Volume to MGH bytes and reloading succeeds and
returns the identical spatial shape, frame count and data values -
provided no spatial axis has extent 1 (the loader's `squeeze` collapses
extent-1 axes, after which the `Volume` constructor no longer sees the
same shape) - with each geometry value equal to the float32
encode-decode of the original, hence within float32 precision whenever
the codec meets its contract on the stored values. -/
theorem c8_mgh_roundtrip {V : Type} (c : F32Codec) (e : ElemCodec V)
    (dtypeId : ℕ) (v : MghVolume V)
    (hsh : ∀ i, 2 ≤ v.shape i) (hs32 : ∀ i, v.shape i < 4294967296)
    (hf : 1 ≤ v.nframes) (hf32 : v.nframes < 4294967296)
    (hdat : v.dat.length = v.shape 0 * v.shape 1 * v.shape 2 * v.nframes)
    (helem : ∀ x ∈ v.dat, e.dec (e.enc x) = x)
    (hvox : ∀ i, |c.dec (c.enc (v.voxsize i)) - v.voxsize i| ≤ 1e-5 * |v.voxsize i|)
    (hrot : ∀ i j, |c.dec (c.enc (v.rotation i j)) - v.rotation i j| ≤
      1e-5 * |v.rotation i j|)
    (hctr : ∀ i, |c.dec (c.enc (v.center i)) - v.center i| ≤ 1e-5 * |v.center i|) :
    ∃ lv, mghLoad c e (mghSave c e dtypeId v) = some lv ∧
      lv.shape = v.shape ∧ lv.nframes = v.nframes ∧ lv.dat = v.dat ∧
      (∀ i, |lv.voxsize i - v.voxsize i| ≤ 1e-5 * |v.voxsize i|) ∧
      (∀ i j, |lv.rotation i j - v.rotation i j| ≤ 1e-5 * |v.rotation i j|) ∧
      (∀ i, |lv.center i - v.center i| ≤ 1e-5 * |v.center i|) := by
  have hs0 := decBE_encU4 _ (hs32 0)
  have hs1 := decBE_encU4 _ (hs32 1)
  have hs2 := decBE_encU4 _ (hs32 2)
  have hsf := decBE_encU4 _ hf32
  have hne0 : v.shape 0 ≠ 1 := by have := hsh 0; omega
  have hne1 : v.shape 1 ≠ 1 := by have := hsh 1; omega
  have hne2 : v.shape 2 ≠ 1 := by have := hsh 2; omega
  simp only [mghSave]
  set verB := encU4 1 with hverB
  set s0B := encU4 (v.shape 0) with hs0B
  set s1B := encU4 (v.shape 1) with hs1B
  set s2B := encU4 (v.shape 2) with hs2B
  set fB := encU4 v.nframes with hfB
  set dtB := encU4 dtypeId with hdtB
  set gB := encU2 1 with hgB
  set vsB := ([v.voxsize 0, v.voxsize 1, v.voxsize 2].map c.enc).flatten with hvsB
  set rotB := ([v.rotation 0 0, v.rotation 1 0, v.rotation 2 0,
     v.rotation 0 1, v.rotation 1 1, v.rotation 2 1,
     v.rotation 0 2, v.rotation 1 2, v.rotation 2 2].map c.enc).flatten with hrotB
  set ctrB := ([v.center 0, v.center 1, v.center 2].map c.enc).flatten with hctrB
  set repB := List.replicate 194 (0 : ℕ) with hrepB
  set datB := (v.dat.map e.enc).flatten with hdatB
  set scanB := ([(0 : ℝ), 0, 0, 0, fovOf v].map c.enc).flatten with hscanB
  set tpB := encU4 tagPedir with htpB
  set t7B := encU4 7 with ht7B
  set unkB := unknownBytes with hunkB
  set tfB := encU4 tagFieldstrength with htfB
  set t4B := encU4 4 with ht4B
  set fsB := c.enc 0 with hfsB
  have hrd4 : ∀ (b : List ℕ), b.length = 4 → ∀ rest : List ℕ,
      rdBytes 4 (b ++ rest) = some (b, rest) :=
    fun b hb rest => rdBytes_exact _ _ hb
  have hrdver := hrd4 verB (by rw [hverB]; rfl)
  have hrds0 := hrd4 s0B (by rw [hs0B]; rfl)
  have hrds1 := hrd4 s1B (by rw [hs1B]; rfl)
  have hrds2 := hrd4 s2B (by rw [hs2B]; rfl)
  have hrdf := hrd4 fB (by rw [hfB]; rfl)
  have hrddt := hrd4 dtB (by rw [hdtB]; rfl)
  have hrdg : ∀ rest : List ℕ, rdBytes 2 (gB ++ rest) = some (gB, rest) :=
    fun rest => rdBytes_exact _ _ (by rw [hgB]; rfl)
  have hrdrep : ∀ rest : List ℕ, rdBytes 194 (repB ++ rest) = some (repB, rest) :=
    fun rest => rdBytes_exact _ _ (by rw [hrepB]; exact List.length_replicate _ _)
  have hdec0 : decBE s0B = v.shape 0 := by rw [hs0B]; exact hs0
  have hdec1 : decBE s1B = v.shape 1 := by rw [hs1B]; exact hs1
  have hdec2 : decBE s2B = v.shape 2 := by rw [hs2B]; exact hs2
  have hdecf : decBE fB = v.nframes := by rw [hfB]; exact hsf
  have hdecg : decBE gB = 1 := by rw [hgB]; rfl
  have hvsrd : ∀ rest : List ℕ, rdSeq 4 c.dec 3 (vsB ++ rest) =
      some ([v.voxsize 0, v.voxsize 1, v.voxsize 2].map fun x => c.dec (c.enc x),
        rest) :=
    fun rest => by
      rw [hvsB]
      exact rdSeq_append_count _ _ _ _ _ _ rfl fun x _ => c.hlen x
  have hrotrd : ∀ rest : List ℕ, rdSeq 4 c.dec 9 (rotB ++ rest) =
      some ([v.rotation 0 0, v.rotation 1 0, v.rotation 2 0,
        v.rotation 0 1, v.rotation 1 1, v.rotation 2 1,
        v.rotation 0 2, v.rotation 1 2, v.rotation 2 2].map fun x => c.dec (c.enc x),
        rest) :=
    fun rest => by
      rw [hrotB]
      exact rdSeq_append_count _ _ _ _ _ _ rfl fun x _ => c.hlen x
  have hctrrd : ∀ rest : List ℕ, rdSeq 4 c.dec 3 (ctrB ++ rest) =
      some ([v.center 0, v.center 1, v.center 2].map fun x => c.dec (c.enc x),
        rest) :=
    fun rest => by
      rw [hctrB]
      exact rdSeq_append_count _ _ _ _ _ _ rfl fun x _ => c.hlen x
  have hscanrd : ∀ rest : List ℕ, rdSeq 4 c.dec 5 (scanB ++ rest) =
      some ([(0 : ℝ), 0, 0, 0, fovOf v].map fun x => c.dec (c.enc x), rest) :=
    fun rest => by
      rw [hscanB]
      exact rdSeq_append_count _ _ _ _ _ _ rfl fun x _ => c.hlen x
  have hdatrd : ∀ rest : List ℕ,
      rdSeq e.width e.dec (v.shape 0 * v.shape 1 * v.shape 2 * v.nframes)
        (datB ++ rest) = some (v.dat.map fun x => e.dec (e.enc x), rest) :=
    fun rest => by
      rw [hdatB]
      exact rdSeq_append_count _ _ _ _ _ _ hdat.symm fun x _ => e.hlen x
  have htag : tagLoop ((tpB ++ (t7B ++ (unkB ++ (tfB ++ (t4B ++ fsB))))).length + 1)
      (tpB ++ (t7B ++ (unkB ++ (tfB ++ (t4B ++ fsB))))) = some () := by
    have hTlen : (tpB ++ (t7B ++ (unkB ++ (tfB ++ (t4B ++ fsB))))).length = 27 := by
      rw [htpB, ht7B, hunkB, htfB, ht4B, hfsB]
      simp [List.length_append, unknownBytes, encU4_length, c.hlen]
    rw [hTlen]
    rw [show (27 : ℕ) + 1 = 27 + 1 from rfl,
      tagLoop_record 27 tpB t7B unkB _ (by rw [htpB]; rfl) (by rw [ht7B]; rfl)
        (by rw [hunkB, ht7B]; rfl)]
    rw [show fsB = fsB ++ [] from (List.append_nil _).symm,
      show (27 : ℕ) = 26 + 1 from rfl,
      tagLoop_record 26 tfB t4B fsB [] (by rw [htfB]; rfl) (by rw [ht4B]; rfl)
        (by rw [hfsB, ht4B, c.hlen]; rfl)]
    exact tagLoop_nil 25
  have hgeo : ∀ rest : List ℕ,
      readGeom c 1 (vsB ++ (rotB ++ (ctrB ++ (repB ++ rest)))) =
      some (((fun i : Fin 3 =>
          (List.map (fun x => c.dec (c.enc x))
            [v.voxsize 0, v.voxsize 1, v.voxsize 2]).getD (i : ℕ) 0),
        (fun i j : Fin 3 =>
          (List.map (fun x => c.dec (c.enc x))
            [v.rotation 0 0, v.rotation 1 0, v.rotation 2 0,
             v.rotation 0 1, v.rotation 1 1, v.rotation 2 1,
             v.rotation 0 2, v.rotation 1 2, v.rotation 2 2]).getD
            ((j : ℕ) * 3 + (i : ℕ)) 0),
        (fun i : Fin 3 =>
          (List.map (fun x => c.dec (c.enc x))
            [v.center 0, v.center 1, v.center 2]).getD (i : ℕ) 0)), rest) := by
    intro rest
    rw [readGeom, if_pos one_ne_zero]
    simp only [hvsrd, hrotrd, hctrrd, hrdrep, Option.some_bind]
  by_cases hf1 : v.nframes = 1
  · have hsq : squeezeDims [v.shape 0, v.shape 1, v.shape 2, v.nframes] =
        [v.shape 0, v.shape 1, v.shape 2] := by
      simp [squeezeDims, hne0, hne1, hne2, hf1]
    have hload : mghLoad c e (verB ++ (s0B ++ (s1B ++ (s2B ++ (fB ++ (dtB ++ (verB ++ (gB ++ (vsB ++ (rotB ++ (ctrB ++ (repB ++ (datB ++ (scanB ++ (tpB ++ (t7B ++ (unkB ++ (tfB ++ (t4B ++ fsB))))))))))))))))))) =
        some ⟨![v.shape 0, v.shape 1, v.shape 2], 1,
        v.dat.map (fun x => e.dec (e.enc x)),
        (fun i : Fin 3 =>
          (([v.voxsize 0, v.voxsize 1, v.voxsize 2].map
            fun x => c.dec (c.enc x)).getD (i : ℕ) 0)),
        (fun i j : Fin 3 =>
          (([v.rotation 0 0, v.rotation 1 0, v.rotation 2 0,
             v.rotation 0 1, v.rotation 1 1, v.rotation 2 1,
             v.rotation 0 2, v.rotation 1 2, v.rotation 2 2].map
            fun x => c.dec (c.enc x)).getD ((j : ℕ) * 3 + (i : ℕ)) 0)),
        (fun i : Fin 3 =>
          (([v.center 0, v.center 1, v.center 2].map
            fun x => c.dec (c.enc x)).getD (i : ℕ) 0))⟩ := by
      simp only [mghLoad, hrdver, hrds0, hrds1, hrds2, hrdf, hrddt, hrdg,
        Option.some_bind, hdec0, hdec1, hdec2, hdecf, hdecg]
      simp only [hgeo, Option.some_bind]
      simp only [hdatrd, Option.some_bind]
      simp only [hscanrd, Option.some_bind]
      simp only [htag, Option.some_bind]
      simp only [hsq, mkLoaded_three, mkLoaded_four]
    refine ⟨_, hload, ?_, ?_, ?_, ?_, ?_, ?_⟩
    · funext i
      fin_cases i <;> rfl
    · exact hf1.symm
    · calc v.dat.map (fun x => e.dec (e.enc x)) = v.dat.map id :=
            List.map_congr_left fun x hx => helem x hx
        _ = v.dat := List.map_id v.dat
    · intro i
      fin_cases i <;> exact hvox _
    · intro i j
      fin_cases i <;> fin_cases j <;> exact hrot _ _
    · intro i
      fin_cases i <;> exact hctr _
  · have hsq : squeezeDims [v.shape 0, v.shape 1, v.shape 2, v.nframes] =
        [v.shape 0, v.shape 1, v.shape 2, v.nframes] := by
      simp [squeezeDims, hne0, hne1, hne2, hf1]
    have hload : mghLoad c e (verB ++ (s0B ++ (s1B ++ (s2B ++ (fB ++ (dtB ++ (verB ++ (gB ++ (vsB ++ (rotB ++ (ctrB ++ (repB ++ (datB ++ (scanB ++ (tpB ++ (t7B ++ (unkB ++ (tfB ++ (t4B ++ fsB))))))))))))))))))) =
        some ⟨![v.shape 0, v.shape 1, v.shape 2], v.nframes,
        v.dat.map (fun x => e.dec (e.enc x)),
        (fun i : Fin 3 =>
          (([v.voxsize 0, v.voxsize 1, v.voxsize 2].map
            fun x => c.dec (c.enc x)).getD (i : ℕ) 0)),
        (fun i j : Fin 3 =>
          (([v.rotation 0 0, v.rotation 1 0, v.rotation 2 0,
             v.rotation 0 1, v.rotation 1 1, v.rotation 2 1,
             v.rotation 0 2, v.rotation 1 2, v.rotation 2 2].map
            fun x => c.dec (c.enc x)).getD ((j : ℕ) * 3 + (i : ℕ)) 0)),
        (fun i : Fin 3 =>
          (([v.center 0, v.center 1, v.center 2].map
            fun x => c.dec (c.enc x)).getD (i : ℕ) 0))⟩ := by
      simp only [mghLoad, hrdver, hrds0, hrds1, hrds2, hrdf, hrddt, hrdg,
        Option.some_bind, hdec0, hdec1, hdec2, hdecf, hdecg]
      simp only [hgeo, Option.some_bind]
      simp only [hdatrd, Option.some_bind]
      simp only [hscanrd, Option.some_bind]
      simp only [htag, Option.some_bind]
      simp only [hsq, mkLoaded_three, mkLoaded_four]
    refine ⟨_, hload, ?_, ?_, ?_, ?_, ?_, ?_⟩
    · funext i
      fin_cases i <;> rfl
    · rfl
    · calc v.dat.map (fun x => e.dec (e.enc x)) = v.dat.map id :=
            List.map_congr_left fun x hx => helem x hx
        _ = v.dat := List.map_id v.dat
    · intro i
      fin_cases i <;> exact hvox _
    · intro i j
      fin_cases i <;> fin_cases j <;> exact hrot _ _
    · intro i
      fin_cases i <;> exact hctr _


/-- A concrete float32 codec storing every value as zero bytes: meets the
length contract, and round-trips the value 0 exactly. -/
def zeroF32 : F32Codec :=
  ⟨fun _ => [0, 0, 0, 0], fun _ => 0, fun _ => rfl⟩

/-- A concrete one-byte element codec (dtype `>u1`) for natural-number
voxel data below 256. -/
def byteElem : ElemCodec ℕ :=
  ⟨1, fun v => [v % 256], fun l => l.headD 0, fun _ => rfl⟩

/-- A 2 x 2 x 1 single-frame volume: its third spatial axis has extent 1,
so the loader's `squeeze` collapses it to 2-D. -/
def cvol : MghVolume ℕ :=
  ⟨![2, 2, 1], 1, [0, 0, 0, 0], fun _ => 0, fun _ _ => 0, fun _ => 0⟩

set_option maxRecDepth 40000 in
/-- C8 counterexample: saving a valid 2 x 2 x 1 single-frame volume and
reloading does not return the same volume - the loader squeezes the
extent-1 axis, the squeezed data is 2-D, and the `Volume` construction
fails, so the round-trip claim fails for this input. -/
theorem c8_counterexample_singleton_axis :
    mghLoad zeroF32 byteElem (mghSave zeroF32 byteElem 3 cvol) = none := rfl

/-- A 2 x 2 x 2 single-frame volume of zeros with zero geometry. -/
def wvol : MghVolume ℕ :=
  ⟨![2, 2, 2], 1, [0, 0, 0, 0, 0, 0, 0, 0], fun _ => 0, fun _ _ => 0, fun _ => 0⟩

theorem c8_witness :
    ∃ lv, mghLoad zeroF32 byteElem (mghSave zeroF32 byteElem 3 wvol) = some lv ∧
      lv.shape = wvol.shape ∧ lv.nframes = wvol.nframes ∧ lv.dat = wvol.dat ∧
      (∀ i, |lv.voxsize i - wvol.voxsize i| ≤ 1e-5 * |wvol.voxsize i|) ∧
      (∀ i j, |lv.rotation i j - wvol.rotation i j| ≤
        1e-5 * |wvol.rotation i j|) ∧
      (∀ i, |lv.center i - wvol.center i| ≤ 1e-5 * |wvol.center i|) :=
  c8_mgh_roundtrip zeroF32 byteElem 3 wvol
    (by intro i; fin_cases i <;> decide)
    (by intro i; fin_cases i <;> decide)
    (by decide) (by decide) (by decide)
    (by intro x hx; simp [wvol] at hx; subst hx; rfl)
    (by intro i; norm_num [wvol, zeroF32])
    (by intro i j; norm_num [wvol, zeroF32])
    (by intro i; norm_num [wvol, zeroF32])

end MghCodec

/-- C1: the spec (and the constructor's own docstring and error message)
says a non-square `(N, N+1)` input is accepted and padded with the identity
row.  The code instead executes `square[: square.shape[0], :] = mat`, i.e.
it assigns the `(N, N+1)` input over all `N+1` rows of the identity, which
fails numpy broadcasting.  Evaluating the embedded setter at the concrete
`(3, 4)` input from the docstring shows the constructor raises a broadcast
error instead of padding. -/
theorem c1_affine_constructor_rejects_documented_input :
    affineMatrixSetter nonSquareInput34 = .error .broadcastError := by
  rfl

end Surfa
